import Mathlib

/-!
Verification development for the medSchedulr prime scheduler wrapper
(file prime_scheduler_wrapper.py).

Modelling conventions:
* Calendar dates are modelled as day numbers (Nat); the weekday of a day
  number n is n % 7, with 0 = Monday ... 5 = Saturday, 6 = Sunday, matching
  the Python date.weekday numbering.  Parsing of ISO date strings is outside
  the model; configurations carry day numbers directly.
* The MIP solver (CBC behind cvxpy) is an oracle: a function from the phase
  flag RELAX to a status string, a valuation of the decision variables in
  the rationals, and an optional objective value.  A status of optimal or
  optimal_inaccurate means the valuation satisfies the built model, which is
  stated explicitly as a hypothesis (SatAssign) where needed.
* cvxpy variables are identified by their indices (VarId); slack variables
  created inside loops are identified by the loop indices at their creation
  site.  Python float arithmetic is modelled by exact rational arithmetic.
* The statistics bundle of the response is a derived tally of the schedule
  and is not modelled; warning strings of the (never invoked) pairing
  feasibility checker are abstracted to the day-index pairs they report.
-/

/-- A doctor record from the request.  Only the fields that the scheduling
engine reads downstream are modelled (name, last_standby and the legacy
workload field are stored by the Python code but never used by the model
builder). -/
structure Doctor where
  id : String
  unit : String
  category : String
deriving DecidableEq, Repr

/-- A unit record from the request: a name and the weekday numbers on which
the unit runs clinic. -/
structure SchedUnit where
  name : String
  clinic_days : List Nat
deriving DecidableEq, Repr

/-- An availability record from the request. -/
structure AvailRec where
  doctor_id : String
  date : Nat
  post : String
  available : Bool
deriving DecidableEq, Repr

/-- An enhanced workload record from the request.  Only the three fields
read by the workload-aware standby penalty are modelled; the remaining
counters (weekday_oncalls_3m, weekend_oncalls_3m, ed_shifts_3m) are stored
by the Python code but never used by the model builder. -/
structure WRec where
  doctor_id : String
  standby_count_12m : Int
  standby_count_3m : Int
  days_since_last_standby : Int
deriving DecidableEq, Repr

/-- Solver configuration: every key is optional and read with a default via
dict.get, mirrored by Option fields with getD accessors below. -/
structure SolverConfig where
  clinicPenaltyBefore : Option ℚ := none
  clinicPenaltySame : Option ℚ := none
  clinicPenaltyAfter : Option ℚ := none
  lambdaRest : Option ℚ := none
  lambdaGap : Option ℚ := none
  lambdaED : Option ℚ := none
  lambdaStandby : Option ℚ := none
  lambdaMinOne : Option ℚ := none
  lambdaRegWeekend : Option ℚ := none
  lambdaUnitOver : Option ℚ := none
  lambdaJuniorWard : Option ℚ := none
  bigM : Option ℚ := none
  solverTimeoutSeconds : Option ℚ := none
deriving DecidableEq, Repr

/-- The scheduling request, after JSON decoding and date parsing. -/
structure Config where
  roster_start : Nat
  roster_end : Nat
  doctors : List Doctor
  units : List SchedUnit
  posts_weekday : List String
  posts_weekend : List String
  availability : List AvailRec
  workload_data : List WRec
  solver_config : SolverConfig
deriving DecidableEq, Repr

/-- Weekday of a day number, with 0 = Monday ... 6 = Sunday. -/
def weekday (n : Nat) : Nat := n % 7

/-- Number of whole months between two (year, month) pairs, from the
months_since utility. -/
def monthsSince (sy sm ey em : Int) : Int := (ey - sy) * 12 + (em - sm)

/-- The weekend-only standby post name hardcoded by the wrapper. -/
def sbPost : String := "Standby Oncall"

/-- Length of the inclusive day list built from roster_start..roster_end
(empty when the interval is inverted). -/
def numDays (cfg : Config) : Nat := cfg.roster_end + 1 - cfg.roster_start

/-- Keep the first occurrence of every element, dropping later duplicates;
this is how Python dict comprehensions treat duplicate keys. -/
def dedupFGo {α : Type} [DecidableEq α] (acc : List α) : List α → List α
  | [] => acc
  | a :: l => dedupFGo (if a ∈ acc then acc else acc ++ [a]) l

/-- First-occurrence deduplication of a list. -/
def dedupF {α : Type} [DecidableEq α] (l : List α) : List α := dedupFGo [] l

/-- Weekday post list after the wrapper appends one clinic post per unit
name that is not already present, in unit order. -/
def postsWeekdayFull (cfg : Config) : List String :=
  cfg.units.foldl
    (fun acc u => if ("clinic:" ++ u.name) ∈ acc then acc else acc ++ ["clinic:" ++ u.name])
    cfg.posts_weekday

/-- Clinic days of a unit name, last record winning, defaulting to the
empty list for unknown names (clinic_days dict with .get default). -/
def clinicDaysOf (units : List SchedUnit) (u : String) : List Nat :=
  (((units.filter (fun q => q.name == u)).getLast?).map (fun q => q.clinic_days)).getD []

/-- Unit of a doctor id per the doctor_info dict (last record wins). -/
def doctorUnitOf (doctors : List Doctor) (d : String) : String :=
  (((doctors.filter (fun q => q.id == d)).getLast?).map (fun q => q.unit)).getD ""

/-- Category of a doctor id per the doctor_info dict (last record wins). -/
def categoryOf (doctors : List Doctor) (d : String) : String :=
  (((doctors.filter (fun q => q.id == d)).getLast?).map (fun q => q.category)).getD ""

/-- The last explicit availability record for (doctor, date, post) whose
date falls inside the roster period; records outside the period are skipped
when the availability dict is built, and later records overwrite earlier
ones. -/
def lookupAvail (cfg : Config) (d : String) (date : Nat) (t : String) : Option AvailRec :=
  (cfg.availability.filter
    (fun r => r.doctor_id == d && r.date == date && r.post == t &&
      decide (cfg.roster_start ≤ r.date) && decide (r.date ≤ cfg.roster_end))).getLast?

/-- The availability index: an explicit record wins; with no record, clinic
posts default to available exactly for doctors of the matching unit on that
unit clinic weekdays, and every other slot defaults to unavailable. -/
def availB (cfg : Config) (d : String) (s : Nat) (t : String) : Bool :=
  match lookupAvail cfg d (cfg.roster_start + s) t with
  | some r => r.available
  | none =>
      if "clinic:".isPrefixOf t then
        let u := t.drop 7
        (doctorUnitOf cfg.doctors d == u) &&
          decide (weekday (cfg.roster_start + s) ∈ clinicDaysOf cfg.units u)
      else false

/-- The in-memory state shared by the model builder, the pairing check and
the result extractor: the calendar, the post catalogue, the availability
index and the solver parameters, all derived once from the request. -/
structure Core where
  start : Nat
  ndays : Nat
  doctors : List Doctor
  units : List SchedUnit
  postsWD : List String
  postsWE : List String
  avail : String → Nat → String → Bool
  wdata : List WRec
  scfg : SolverConfig

/-- Derive the shared state from a request. -/
def mkCore (cfg : Config) : Core :=
  { start := cfg.roster_start
    ndays := numDays cfg
    doctors := cfg.doctors
    units := cfg.units
    postsWD := postsWeekdayFull cfg
    postsWE := cfg.posts_weekend
    avail := availB cfg
    wdata := cfg.workload_data
    scfg := cfg.solver_config }

/-- Doctor id list D, in request order (duplicates preserved, as in the
Python list). -/
def Core.Dlist (core : Core) : List String := core.doctors.map (fun d => d.id)

/-- Post list of a day: weekend posts on Saturday and Sunday, the extended
weekday list otherwise. -/
def Core.postsByDay (core : Core) (s : Nat) : List String :=
  if 5 ≤ weekday (core.start + s) then core.postsWE else core.postsWD

/-- Saturday day indices that are directly followed by a Sunday inside the
horizon. -/
def Core.satDays (core : Core) : List Nat :=
  (List.range (core.ndays - 1)).filter
    (fun s => weekday (core.start + s) == 5 && weekday (core.start + s + 1) == 6)

/-- Weekend pairs (Saturday index, Sunday index) in horizon order. -/
def Core.weekendPairs (core : Core) : List (Nat × Nat) :=
  core.satDays.map (fun s => (s, s + 1))

/-- Unit names in first-occurrence order (keys of the clinic_days dict). -/
def Core.unitNames (core : Core) : List String := dedupF (core.units.map (fun u => u.name))

/-- On-call posts: any weekday or weekend post that is not a clinic post of
one of the units. -/
def Core.oncallP (core : Core) (t : String) : Prop :=
  (t ∈ core.postsWD ∨ t ∈ core.postsWE) ∧
    t ∉ core.units.map (fun u => "clinic:" ++ u.name)

instance (core : Core) (t : String) : Decidable (core.oncallP t) := by
  unfold Core.oncallP; infer_instance

/-- Identity of a cvxpy decision variable, by its creation indices.  Slack
variables created anonymously inside loops are identified by the loop
indices at their creation site. -/
inductive VarId : Type
  | x (d : String) (s : Nat) (t : String)
  | y (d : String) (w : Nat)
  | restViol (d : String) (s : Nat)
  | zGap (d : String) (s : Nat)
  | minOne (d : String)
  | multiW (d : String)
  | covSlack (s : Nat) (t : String)
  | clinicSlack (u : String) (s : Nat)
  | overSlack (u : String) (s : Nat)
deriving DecidableEq, Repr

/-- A linear constraint: the sum of the lhs variables is equal to (isEq) or
at most the constant plus the sum of the rhs variables. -/
structure LinCon where
  lhs : List VarId
  rhs : List VarId
  const : ℚ
  isEq : Bool
deriving DecidableEq, Repr

/-- Sum of a variable list under a valuation (with multiplicity, as cp.sum
over a Python list). -/
def vsum (nu : VarId → ℚ) (l : List VarId) : ℚ := (l.map nu).sum

/-- Satisfaction of one linear constraint. -/
def LinCon.Holds (c : LinCon) (nu : VarId → ℚ) : Prop :=
  (c.isEq = true ∧ vsum nu c.lhs = c.const + vsum nu c.rhs) ∨
    (c.isEq = false ∧ vsum nu c.lhs ≤ c.const + vsum nu c.rhs)

instance (c : LinCon) (nu : VarId → ℚ) : Decidable (c.Holds nu) := by
  unfold LinCon.Holds; infer_instance

/-- Materialisation test for an assignment variable: x[d,s,t] exists iff d
is a listed doctor, s is a horizon day, t is a post of that day and the
availability index holds (the keys of the x dict). -/
def Core.matB (core : Core) (d : String) (s : Nat) (t : String) : Bool :=
  decide (d ∈ core.Dlist) && decide (s < core.ndays) &&
    decide (t ∈ core.postsByDay s) && core.avail d s t

/-- The keys of the x dict in insertion order: doctor-major, then day, then
post, availability-filtered, first occurrence kept. -/
def Core.xKeys (core : Core) : List (String × Nat × String) :=
  dedupF (core.Dlist.flatMap (fun d =>
    (List.range core.ndays).flatMap (fun s =>
      (core.postsByDay s).filterMap (fun t =>
        if core.avail d s t then some (d, s, t) else none))))

/-- Enhanced workload of a doctor: the last matching workload record, or
zero counts with the 9999 sentinel when the request has no record for the
doctor (the prefilled zeros and the dict.get default coincide). -/
def Core.workloadOf (core : Core) (d : String) : Int × Int × Int :=
  if core.wdata ≠ [] then
    match (core.wdata.filter (fun w => w.doctor_id == d)).getLast? with
    | some w => (w.standby_count_12m, w.standby_count_3m, w.days_since_last_standby)
    | none => (0, 0, 9999)
  else (0, 0, 9999)

/-- Solver parameter accessors with the dict.get defaults of the wrapper. -/
def Core.lamBefore (core : Core) : ℚ := core.scfg.clinicPenaltyBefore.getD 10
def Core.lamSame (core : Core) : ℚ := core.scfg.clinicPenaltySame.getD 50
def Core.lamAfter (core : Core) : ℚ := core.scfg.clinicPenaltyAfter.getD 5
def Core.lamRest (core : Core) : ℚ := core.scfg.lambdaRest.getD 3
def Core.lamGap (core : Core) : ℚ := core.scfg.lambdaGap.getD 1
def Core.lamED (core : Core) : ℚ := core.scfg.lambdaED.getD 6
def Core.lamStandby (core : Core) : ℚ := core.scfg.lambdaStandby.getD 5
def Core.lamMinOne (core : Core) : ℚ := core.scfg.lambdaMinOne.getD 10
def Core.lamRegWeekend (core : Core) : ℚ := core.scfg.lambdaRegWeekend.getD 2
def Core.lamUnitOver (core : Core) : ℚ := core.scfg.lambdaUnitOver.getD 25
def Core.lamJuniorWard (core : Core) : ℚ := core.scfg.lambdaJuniorWard.getD 6
def Core.bigM (core : Core) : ℚ := core.scfg.bigM.getD 10000

/-- Workload-aware standby penalty multiplier of one doctor, from the
wrapper: heavy surcharge for standby within 12 months, medium within 3
months, a recency surcharge inside a year, and a capped reward beyond a
year, never dropping below 1.  Python float division is modelled by exact
rational division. -/
def standbyMultiplier (lam : ℚ) (wd : Int × Int × Int) : ℚ :=
  if wd.1 > 0 then lam + 5000
  else if wd.2.1 > 0 then lam + 2000
  else if wd.2.2 < 365 then lam + ((max 0 ((365 - wd.2.2) * 5) : Int) : ℚ)
  else if wd.2.2 > 365 then max 1 (lam - min 200 (((wd.2.2 : ℚ) - 365) / 5))
  else lam

/-- Assignment variables of one doctor on one day restricted to on-call
posts, in post order. -/
def Core.oncallVars (core : Core) (d : String) (s : Nat) : List VarId :=
  (core.postsByDay s).filterMap (fun t =>
    if core.oncallP t ∧ core.matB d s t then some (VarId.x d s t) else none)

/-- Assignment variables of one doctor on one day restricted to on-call
posts other than Standby Oncall. -/
def Core.nonSBVars (core : Core) (d : String) (s : Nat) : List VarId :=
  (core.postsByDay s).filterMap (fun t =>
    if core.oncallP t ∧ t ≠ sbPost ∧ core.matB d s t then some (VarId.x d s t) else none)

/-- Keys of the rest_violation dict: every doctor paired with every
adjacent day index. -/
def Core.restKeys (core : Core) : List (String × Nat) :=
  core.Dlist.flatMap (fun d => (List.range (core.ndays - 1)).map (fun s => (d, s)))

/-- Coverage constraints: one per (day, post) with at least one materialised
variable; an equality in phase 1, a slack-relaxed lower bound in phase 2. -/
def Core.covCons (core : Core) (relax : Bool) : List LinCon :=
  (List.range core.ndays).flatMap (fun s =>
    (core.postsByDay s).filterMap (fun t =>
      let asg := core.Dlist.filterMap (fun d =>
        if core.matB d s t then some (VarId.x d s t) else none)
      if asg ≠ [] then
        some (if relax then { lhs := [], rhs := asg ++ [VarId.covSlack s t], const := -1, isEq := false }
              else { lhs := asg, rhs := [], const := 1, isEq := true })
      else none))

/-- Big-M penalties on the phase-2 coverage slacks. -/
def Core.covPens (core : Core) (relax : Bool) : List (ℚ × VarId) :=
  if relax then
    (List.range core.ndays).flatMap (fun s =>
      (core.postsByDay s).filterMap (fun t =>
        let asg := core.Dlist.filterMap (fun d =>
          if core.matB d s t then some (VarId.x d s t) else none)
        if asg ≠ [] then some (core.bigM, VarId.covSlack s t) else none))
  else []

/-- At-most-one-post-per-day constraints (always hard). -/
def Core.dayCons (core : Core) : List LinCon :=
  core.Dlist.flatMap (fun d =>
    (List.range core.ndays).filterMap (fun s =>
      let dv := (core.postsByDay s).filterMap (fun t =>
        if core.matB d s t then some (VarId.x d s t) else none)
      if dv ≠ [] then some { lhs := dv, rhs := [], const := 1, isEq := false } else none))

/-- Clinic coverage constraints: on each clinic weekday of a unit whose
clinic post is offered that day, the unit doctors cover the clinic exactly
once (phase 1) or up to slack (phase 2). -/
def Core.clinicCons (core : Core) (relax : Bool) : List LinCon :=
  core.unitNames.flatMap (fun u =>
    let wds := clinicDaysOf core.units u
    let udocs := core.Dlist.filter (fun d => doctorUnitOf core.doctors d == u)
    (List.range core.ndays).filterMap (fun s =>
      if weekday (core.start + s) ∈ wds ∧ ("clinic:" ++ u) ∈ core.postsByDay s then
        let cv := udocs.filterMap (fun d =>
          if core.matB d s ("clinic:" ++ u) then some (VarId.x d s ("clinic:" ++ u)) else none)
        if cv ≠ [] then
          some (if relax then { lhs := [], rhs := cv ++ [VarId.clinicSlack u s], const := -1, isEq := false }
                else { lhs := cv, rhs := [], const := 1, isEq := true })
        else none
      else none))

/-- Big-M penalties on the phase-2 clinic slacks. -/
def Core.clinicPens (core : Core) (relax : Bool) : List (ℚ × VarId) :=
  if relax then
    core.unitNames.flatMap (fun u =>
      let wds := clinicDaysOf core.units u
      let udocs := core.Dlist.filter (fun d => doctorUnitOf core.doctors d == u)
      (List.range core.ndays).filterMap (fun s =>
        if weekday (core.start + s) ∈ wds ∧ ("clinic:" ++ u) ∈ core.postsByDay s then
          let cv := udocs.filterMap (fun d =>
            if core.matB d s ("clinic:" ++ u) then some (VarId.x d s ("clinic:" ++ u)) else none)
          if cv ≠ [] then some (core.bigM, VarId.clinicSlack u s) else none
        else none))
  else []

/-- AND-linearisation of the weekend indicators: when both weekend standby
variables of a doctor exist, y is bounded by each and above their sum minus
one; otherwise y is forced to zero. -/
def Core.yLinkCons (core : Core) : List LinCon :=
  (List.range core.weekendPairs.length).flatMap (fun w =>
    match core.weekendPairs.get? w with
    | none => []
    | some p =>
        core.Dlist.flatMap (fun d =>
          if core.matB d p.1 sbPost ∧ core.matB d p.2 sbPost then
            [ { lhs := [VarId.y d w], rhs := [VarId.x d p.1 sbPost], const := 0, isEq := false },
              { lhs := [VarId.y d w], rhs := [VarId.x d p.2 sbPost], const := 0, isEq := false },
              { lhs := [VarId.x d p.1 sbPost, VarId.x d p.2 sbPost], rhs := [VarId.y d w],
                const := 1, isEq := false } ]
          else [ { lhs := [VarId.y d w], rhs := [], const := 0, isEq := true } ]))

/-- Saturday equals Sunday standby pairing: emitted per doctor with both
variables, and only for weekends where each day has at least one candidate. -/
def Core.pairEqCons (core : Core) : List LinCon :=
  core.weekendPairs.flatMap (fun p =>
    let satA := core.Dlist.filterMap (fun d =>
      if core.matB d p.1 sbPost then some (VarId.x d p.1 sbPost) else none)
    let sunA := core.Dlist.filterMap (fun d =>
      if core.matB d p.2 sbPost then some (VarId.x d p.2 sbPost) else none)
    if satA ≠ [] ∧ sunA ≠ [] then
      core.Dlist.filterMap (fun d =>
        if core.matB d p.1 sbPost ∧ core.matB d p.2 sbPost then
          some { lhs := [VarId.x d p.1 sbPost], rhs := [VarId.x d p.2 sbPost],
                 const := 0, isEq := true }
        else none)
    else [])

/-- No back-to-back standby weekends. -/
def Core.cooldownCons (core : Core) : List LinCon :=
  core.Dlist.flatMap (fun d =>
    (List.range (core.weekendPairs.length - 1)).map (fun w =>
      { lhs := [VarId.y d w, VarId.y d (w + 1)], rhs := [], const := 1, isEq := false }))

/-- At most one standby weekend per doctor over the horizon. -/
def Core.capCons (core : Core) : List LinCon :=
  core.Dlist.filterMap (fun d =>
    let ys := (List.range core.weekendPairs.length).map (fun w => VarId.y d w)
    if ys ≠ [] then some { lhs := ys, rhs := [], const := 1, isEq := false } else none)

/-- Multiple-weekend overflow: a nonnegative excess variable above the
weekend indicator sum minus one, with a fixed 1000 penalty. -/
def Core.multiData (core : Core) : List (LinCon × (ℚ × VarId)) :=
  core.Dlist.filterMap (fun d =>
    let ys := (List.range core.weekendPairs.length).map (fun w => VarId.y d w)
    if ys ≠ [] then
      some ({ lhs := ys, rhs := [VarId.multiW d], const := 1, isEq := false },
            (1000, VarId.multiW d))
    else none)

/-- Rest constraints over adjacent day pairs, as built by the wrapper: for
a standby weekend pair the standby variables are excluded and the rest rule
applies to the remaining on-call posts only; the soft branch applies when
the pair has a rest_violation variable (the else branch emits a hard
constraint and produces no penalty). -/
def Core.restData (core : Core) : List (LinCon × Option (ℚ × VarId)) :=
  core.Dlist.flatMap (fun d =>
    (List.range (core.ndays - 1)).filterMap (fun s =>
      if core.oncallVars d s ≠ [] ∧ core.oncallVars d (s + 1) ≠ [] then
        if weekday (core.start + s) = 5 ∧ weekday (core.start + s + 1) = 6 ∧
            sbPost ∈ core.postsByDay s ∧ sbPost ∈ core.postsByDay (s + 1) then
          if core.nonSBVars d s ≠ [] ∧ core.nonSBVars d (s + 1) ≠ [] then
            if (d, s) ∈ core.restKeys then
              some ({ lhs := core.nonSBVars d s ++ core.nonSBVars d (s + 1),
                      rhs := [VarId.restViol d s], const := 1, isEq := false },
                    some (core.lamRest, VarId.restViol d s))
            else
              some ({ lhs := core.nonSBVars d s ++ core.nonSBVars d (s + 1), rhs := [],
                      const := 1, isEq := false }, none)
          else none
        else
          if (d, s) ∈ core.restKeys then
            some ({ lhs := core.oncallVars d s ++ core.oncallVars d (s + 1),
                    rhs := [VarId.restViol d s], const := 1, isEq := false },
                  some (core.lamRest, VarId.restViol d s))
          else
            some ({ lhs := core.oncallVars d s ++ core.oncallVars d (s + 1), rhs := [],
                    const := 1, isEq := false }, none)
      else none))

/-- Clinic-day conflict penalties: an on-call assignment the day before, of
or after a clinic weekday of the doctor own unit is charged the before,
same or after coefficient. -/
def Core.clinicDayPens (core : Core) : List (ℚ × VarId) :=
  core.Dlist.flatMap (fun d =>
    let daysU := clinicDaysOf core.units (doctorUnitOf core.doctors d)
    (List.range core.ndays).flatMap (fun s =>
      if weekday (core.start + s) ∈ daysU then
        ([-1, 0, 1] : List Int).flatMap (fun delta =>
          let i : Int := (s : Int) + delta
          if 0 ≤ i ∧ i < (core.ndays : Int) then
            (core.postsByDay i.toNat).filterMap (fun t =>
              if core.oncallP t ∧ core.matB d i.toNat t then
                some (if delta = -1 then core.lamBefore
                      else if delta = 0 then core.lamSame else core.lamAfter,
                      VarId.x d i.toNat t)
              else none)
          else [])
      else []))

/-- Workload-aware standby penalties: each materialised standby variable of
a doctor is charged that doctor multiplier. -/
def Core.standbyPens (core : Core) : List (ℚ × VarId) :=
  core.Dlist.flatMap (fun d =>
    let m := standbyMultiplier core.lamStandby (core.workloadOf d)
    (List.range core.ndays).flatMap (fun s =>
      (core.postsByDay s).filterMap (fun t =>
        if t = sbPost ∧ core.matB d s t then some (m, VarId.x d s t) else none)))

/-- Registrar weekend on-call penalty, standby excluded. -/
def Core.regPens (core : Core) : List (ℚ × VarId) :=
  core.xKeys.filterMap (fun k =>
    if categoryOf core.doctors k.1 = "registrar" ∧ 5 ≤ weekday (core.start + k.2.1) ∧
        core.oncallP k.2.2 ∧ k.2.2 ≠ sbPost then
      some (core.lamRegWeekend, VarId.x k.1 k.2.1 k.2.2)
    else none)

/-- Junior doctors on Ward-prefixed posts penalty. -/
def Core.juniorPens (core : Core) : List (ℚ × VarId) :=
  core.xKeys.filterMap (fun k =>
    if categoryOf core.doctors k.1 = "junior" ∧ "Ward".isPrefixOf k.2.2 then
      some (core.lamJuniorWard, VarId.x k.1 k.2.1 k.2.2)
    else none)

/-- Senior or registrar doctors on ED-prefixed posts penalty. -/
def Core.edPens (core : Core) : List (ℚ × VarId) :=
  core.xKeys.filterMap (fun k =>
    if (categoryOf core.doctors k.1 = "senior" ∨ categoryOf core.doctors k.1 = "registrar") ∧
        "ED".isPrefixOf k.2.2 then
      some (core.lamED, VarId.x k.1 k.2.1 k.2.2)
    else none)

/-- Minimum-one-assignment constraint and penalty for non-floaters. -/
def Core.minOneData (core : Core) : List (LinCon × (ℚ × VarId)) :=
  core.Dlist.filterMap (fun d =>
    if categoryOf core.doctors d ≠ "floater" then
      let total := (List.range core.ndays).flatMap (fun s =>
        (core.postsByDay s).filterMap (fun t =>
          if core.matB d s t then some (VarId.x d s t) else none))
      some ({ lhs := [], rhs := total ++ [VarId.minOne d], const := -1, isEq := false },
            (core.lamMinOne, VarId.minOne d))
    else none)

/-- Three-day gap reward: the gap indicator is bounded below by the on-call
sums of day s and day s+2 minus one and rewarded negatively. -/
def Core.gapData (core : Core) : List (LinCon × (ℚ × VarId)) :=
  core.Dlist.flatMap (fun d =>
    (List.range (core.ndays - 2)).filterMap (fun s =>
      if s + 3 ≤ core.ndays then
        let today := core.oncallVars d s
        let plus3 := core.oncallVars d (s + 2)
        if today ≠ [] ∧ plus3 ≠ [] then
          some ({ lhs := today ++ plus3, rhs := [VarId.zGap d s], const := 1, isEq := false },
                (-core.lamGap, VarId.zGap d s))
        else none
      else none))

/-- Unit over-coverage soft cap on non-clinic days, at a quarter of the
unit rounded up (math.ceil of 0.25 times the unit size, which is exact
for these magnitudes and equals (n + 3) / 4 in integer arithmetic). -/
def Core.unitCapData (core : Core) : List (LinCon × (ℚ × VarId)) :=
  core.unitNames.flatMap (fun u =>
    let udocs := core.Dlist.filter (fun d => doctorUnitOf core.doctors d == u)
    if udocs ≠ [] then
      let cap : ℚ := (max 1 ((udocs.length + 3) / 4) : Nat)
      (List.range core.ndays).filterMap (fun s =>
        if weekday (core.start + s) ∉ clinicDaysOf core.units u then
          let uas := udocs.flatMap (fun d =>
            (core.postsByDay s).filterMap (fun t =>
              if core.matB d s t then some (VarId.x d s t) else none))
          if uas ≠ [] then
            some ({ lhs := uas, rhs := [VarId.overSlack u s], const := cap, isEq := false },
                  (core.lamUnitOver, VarId.overSlack u s))
          else none
        else none)
    else [])

/-- The boolean-declared variables of the model: assignment variables,
weekend indicators, rest violations, gap indicators and min-one slacks. -/
def Core.boolVars (core : Core) : List VarId :=
  core.xKeys.map (fun k => VarId.x k.1 k.2.1 k.2.2) ++
  core.Dlist.flatMap (fun d =>
    (List.range core.weekendPairs.length).map (fun w => VarId.y d w)) ++
  core.Dlist.flatMap (fun d =>
    (List.range (core.ndays - 1)).map (fun s => VarId.restViol d s)) ++
  core.Dlist.flatMap (fun d =>
    ((List.range core.ndays).filter (fun s => s + 3 ≤ core.ndays)).map (fun s => VarId.zGap d s)) ++
  (core.Dlist.filter (fun d => categoryOf core.doctors d ≠ "floater")).map (fun d => VarId.minOne d)

/-- The nonnegative-declared variables of the model: weekend overflow
variables and the slack variables created at their loop sites. -/
def Core.nonnegVars (core : Core) (relax : Bool) : List VarId :=
  core.Dlist.map (fun d => VarId.multiW d) ++
  (if relax then
    ((core.covPens relax).map (fun p => p.2)) ++ ((core.clinicPens relax).map (fun p => p.2))
   else []) ++
  (core.unitCapData.map (fun p => p.2.2))

/-- A built MIP model: constraint list, penalty terms of the objective
(each term is coefficient times variable) and variable declarations. -/
structure Model where
  constraints : List LinCon
  penalties : List (ℚ × VarId)
  boolVars : List VarId
  nonnegVars : List VarId

/-- Build the phase-1 (strict) or phase-2 (relaxed) model, concatenating
the constraint families and penalty terms in the order the wrapper appends
them. -/
def buildModel (core : Core) (relax : Bool) : Model :=
  { constraints :=
      core.covCons relax ++ core.dayCons ++ core.clinicCons relax ++ core.yLinkCons ++
      core.pairEqCons ++ core.cooldownCons ++ core.capCons ++
      (core.multiData.map (fun p => p.1)) ++ (core.restData.map (fun p => p.1)) ++
      (core.minOneData.map (fun p => p.1)) ++ (core.gapData.map (fun p => p.1)) ++
      (core.unitCapData.map (fun p => p.1))
    penalties :=
      core.covPens relax ++ core.clinicPens relax ++ (core.multiData.map (fun p => p.2)) ++
      (core.restData.filterMap (fun p => p.2)) ++ core.clinicDayPens ++ core.standbyPens ++
      core.regPens ++ core.juniorPens ++ core.edPens ++
      (core.minOneData.map (fun p => p.2)) ++ (core.gapData.map (fun p => p.2)) ++
      (core.unitCapData.map (fun p => p.2))
    boolVars := core.boolVars
    nonnegVars := core.nonnegVars relax }

/-- A valuation satisfies a model when every constraint holds, every
boolean variable is 0 or 1, and every nonnegative variable is nonnegative
(the contract of a usable oracle answer). -/
def SatAssign (M : Model) (nu : VarId → ℚ) : Prop :=
  (∀ c ∈ M.constraints, c.Holds nu) ∧
  (∀ v ∈ M.boolVars, nu v = 0 ∨ nu v = 1) ∧
  (∀ v ∈ M.nonnegVars, 0 ≤ nu v)

instance (M : Model) (nu : VarId → ℚ) : Decidable (SatAssign M nu) := by
  unfold SatAssign; infer_instance

/-- One row of the returned schedule. -/
structure Assignment where
  doctor : String
  date : Nat
  post : String
deriving DecidableEq, Repr

/-- An oracle (solver) answer: a status string, a valuation of the
variables, and the reported objective value if any. -/
structure OracleResult where
  status : String
  val : VarId → ℚ
  objValue : Option ℚ

/-- Usable final statuses: results are extracted only for these. -/
def usableB (st : String) : Bool := st == "optimal" || st == "optimal_inaccurate"

/-- Result extraction: one row per materialised assignment variable whose
valuation exceeds one half, in x dict order. -/
def extract (core : Core) (nu : VarId → ℚ) : List Assignment :=
  core.xKeys.filterMap (fun k =>
    if nu (VarId.x k.1 k.2.1 k.2.2) > 1 / 2 then
      some { doctor := k.1, date := core.start + k.2.1, post := k.2.2 }
    else none)

/-- Count of weekend indicator variables valued above one half, over all
doctor and weekend index pairs. -/
def countWeekend (core : Core) (nu : VarId → ℚ) : Nat :=
  (core.Dlist.flatMap (fun d =>
    (List.range core.weekendPairs.length).filterMap (fun w =>
      if nu (VarId.y d w) > 1 / 2 then some (d, w) else none))).length

/-- The response dictionary of the wrapper (the derived statistics bundle
is omitted; it is a tally of the schedule list). -/
structure Response where
  schedule : List Assignment
  solver_status : String
  objective_value : Option ℚ
  success : Bool
  warnings : List String
  weekend_assignments : Nat
  error : Option String
deriving DecidableEq, Repr

/-- Observable outcome of one run: the response, the RELAX flags of the
oracle invocations in order, and which solution was adopted. -/
structure RunOut where
  response : Response
  phases : List Bool
  adoptedStatus : String
  adoptedRelax : Bool
deriving Repr

/-- Assemble the outcome from the adopted oracle answer: schedule and
weekend count only for a usable status, pairing warnings always empty
(check_standby_pairing_feasibility is never invoked; the wrapper keeps
pairing_warnings as a constant empty list). -/
def mkOut (core : Core) (r : OracleResult) (relaxFlag : Bool) (phases : List Bool) : RunOut :=
  { response :=
      { schedule := if usableB r.status then extract core r.val else []
        solver_status := r.status
        objective_value := r.objValue
        success := usableB r.status
        warnings := []
        weekend_assignments := if usableB r.status then countWeekend core r.val else 0
        error := none }
    phases := phases
    adoptedStatus := r.status
    adoptedRelax := relaxFlag }

/-- Build and solve one phase: raises when the CBC solver is missing,
otherwise consults the oracle with the phase flag. -/
def buildAndSolve (oracle : Bool → OracleResult) (cbc : Bool) (relax : Bool) :
    Except String OracleResult :=
  if cbc then Except.ok (oracle relax) else Except.error ("CBC solver is required but not installed")

/-- The body of run_prime_scheduler inside its try block: phase 1 strict,
adopted only on an optimal status, otherwise phase 2 relaxed adopted
whatever its status. -/
def runCoreInner (core : Core) (oracle : Bool → OracleResult) (cbc : Bool) :
    Except String RunOut := do
  let r1 ← buildAndSolve oracle cbc false
  if r1.status == "optimal" then
    return mkOut core r1 false [false]
  else
    let r2 ← buildAndSolve oracle cbc true
    return mkOut core r2 true [false, true]

/-- The response produced by the catch-all exception handler. -/
def errorResponse (e : String) : Response :=
  { schedule := []
    solver_status := "error"
    objective_value := none
    success := false
    warnings := []
    weekend_assignments := 0
    error := some e }

/-- Run the scheduler on prepared state: any internal error is caught and
turned into the error response. -/
def runCore (core : Core) (oracle : Bool → OracleResult) (cbc : Bool) : RunOut :=
  match runCoreInner core oracle cbc with
  | Except.ok out => out
  | Except.error e =>
      { response := errorResponse e, phases := [], adoptedStatus := "error", adoptedRelax := false }

/-- Run the scheduler on a request. -/
def runPrime (cfg : Config) (oracle : Bool → OracleResult) (cbc : Bool) : RunOut :=
  runCore (mkCore cfg) oracle cbc

/-- The standby pairing feasibility check, abstracted to the day-index
pairs it would warn about: every Saturday to Sunday pair with no doctor
available for standby on both days (warning strings are not modelled). -/
def checkPairs (core : Core) : List (Nat × Nat) :=
  (List.range (core.ndays - 1)).filterMap (fun i =>
    if weekday (core.start + i) = 5 ∧ weekday (core.start + i + 1) = 6 then
      let satD := core.Dlist.filter (fun d => core.avail d i sbPost)
      let sunD := core.Dlist.filter (fun d => core.avail d (i + 1) sbPost)
      if satD.filter (fun d => d ∈ sunD) = [] then some (i, i + 1) else none
    else none)

/-- Doctors holding a standby row on a given date of a schedule. -/
def standbyDocs (sched : List Assignment) (date : Nat) : List String :=
  (sched.filter (fun a => a.post == sbPost && a.date == date)).map (fun a => a.doctor)

/-- The standby pairing property claimed of returned schedules: on every
weekend pair the Saturday and Sunday standby doctor sets coincide and hold
at most one doctor. -/
def standbyPairingHolds (core : Core) (sched : List Assignment) : Bool :=
  core.weekendPairs.all (fun p =>
    let satD := standbyDocs sched (core.start + p.1)
    let sunD := standbyDocs sched (core.start + p.2)
    satD.all (fun d => d ∈ sunD) && sunD.all (fun d => d ∈ satD) &&
      decide ((dedupF satD).length ≤ 1))

/-- The standby horizon cap property claimed of returned schedules: no
doctor holds standby rows in more than one weekend pair. -/
def standbyCapHolds (core : Core) (sched : List Assignment) : Bool :=
  core.Dlist.all (fun d =>
    decide ((core.weekendPairs.filter (fun p =>
      decide ((⟨d, core.start + p.1, sbPost⟩ : Assignment) ∈ sched) ||
      decide ((⟨d, core.start + p.2, sbPost⟩ : Assignment) ∈ sched))).length ≤ 1))

/-- Membership of a standby row pair for weekend index w of a schedule:
the doctor holds standby rows on both days of weekend w. -/
def bothSBRows (core : Core) (sched : List Assignment) (d : String) (w : Nat) : Bool :=
  match core.weekendPairs.get? w with
  | some p =>
      decide ((⟨d, core.start + p.1, sbPost⟩ : Assignment) ∈ sched) &&
      decide ((⟨d, core.start + p.2, sbPost⟩ : Assignment) ∈ sched)
  | none => false

/-- The rest constraint family as the specification words it: for every
doctor and adjacent day pair, the soft rest constraint over the on-call
variables of the two days, except that on a weekend pair the standby
variables are excluded from both sides and the constraint is emitted only
when the remaining on-call posts are materialised on both days. -/
def Core.restDataSpec (core : Core) : List (LinCon × Option (ℚ × VarId)) :=
  core.Dlist.flatMap (fun d =>
    (List.range (core.ndays - 1)).filterMap (fun s =>
      if (s, s + 1) ∈ core.weekendPairs then
        if core.nonSBVars d s ≠ [] ∧ core.nonSBVars d (s + 1) ≠ [] then
          some ({ lhs := core.nonSBVars d s ++ core.nonSBVars d (s + 1),
                  rhs := [VarId.restViol d s], const := 1, isEq := false },
                some (core.lamRest, VarId.restViol d s))
        else none
      else
        if core.oncallVars d s ≠ [] ∧ core.oncallVars d (s + 1) ≠ [] then
          some ({ lhs := core.oncallVars d s ++ core.oncallVars d (s + 1),
                  rhs := [VarId.restViol d s], const := 1, isEq := false },
                some (core.lamRest, VarId.restViol d s))
        else none))

/-- The valuation whose extraction the pipeline returns: phase 1 when its
status is optimal, phase 2 otherwise. -/
def adoptedVal (oracle : Bool → OracleResult) : VarId → ℚ :=
  if (oracle false).status == "optimal" then (oracle false).val else (oracle true).val

theorem dedupFGo_mem {α : Type} [DecidableEq α] (x : α) (l : List α) :
    ∀ acc : List α, (x ∈ dedupFGo acc l ↔ x ∈ acc ∨ x ∈ l) := by
  induction l with
  | nil => intro acc; simp [dedupFGo]
  | cons a l ih =>
    intro acc
    rw [dedupFGo, ih]
    by_cases h : a ∈ acc
    · simp only [if_pos h, List.mem_cons]
      constructor
      · rintro (h1 | h1)
        · exact Or.inl h1
        · exact Or.inr (Or.inr h1)
      · rintro (h1 | h1 | h1)
        · exact Or.inl h1
        · exact Or.inl (h1 ▸ h)
        · exact Or.inr h1
    · simp only [if_neg h, List.mem_append, List.mem_singleton, List.mem_cons]
      tauto

theorem dedupF_mem {α : Type} [DecidableEq α] (x : α) (l : List α) :
    x ∈ dedupF l ↔ x ∈ l := by
  rw [dedupF, dedupFGo_mem]; simp

theorem dedupFGo_nodup {α : Type} [DecidableEq α] (l : List α) :
    ∀ acc : List α, acc.Nodup → (dedupFGo acc l).Nodup := by
  induction l with
  | nil => intro acc h; simpa [dedupFGo] using h
  | cons a l ih =>
    intro acc h
    rw [dedupFGo]
    by_cases hm : a ∈ acc
    · rw [if_pos hm]; exact ih acc h
    · rw [if_neg hm]
      refine ih _ ?_
      simp only [List.nodup_append, List.nodup_cons, List.nodup_nil, and_true, true_and, h]
      constructor
      · simp
      · intro b hb hba
        simp only [List.mem_singleton] at hba
        exact hm (hba ▸ hb)

theorem dedupF_nodup {α : Type} [DecidableEq α] (l : List α) : (dedupF l).Nodup :=
  dedupFGo_nodup l [] List.nodup_nil

/-- Length of a filtered index list is bounded by the sum of a function
that is nonnegative on the list and at least one on the filtered part. -/
theorem filterLenLeSum (l : List Nat) (p : Nat → Bool) (f : Nat → ℚ)
    (h0 : ∀ a ∈ l, 0 ≤ f a) (h1 : ∀ a ∈ l, p a = true → 1 ≤ f a) :
    ((l.filter p).length : ℚ) ≤ (l.map f).sum := by
  induction l with
  | nil => simp
  | cons a l ih =>
    have h0a := h0 a (List.mem_cons_self a l)
    have ihl := ih (fun b hb => h0 b (List.mem_cons_of_mem a hb))
      (fun b hb hq => h1 b (List.mem_cons_of_mem a hb) hq)
    by_cases hp : p a = true
    · have h1a := h1 a (List.mem_cons_self a l) hp
      simp only [List.filter_cons, hp, if_pos, List.length_cons, List.map_cons, List.sum_cons]
      push_cast
      linarith
    · simp only [List.filter_cons, hp, Bool.false_eq_true, if_neg, List.map_cons, List.sum_cons,
        not_false_iff]
      linarith

theorem Core.mem_xKeys (core : Core) (d : String) (s : Nat) (t : String) :
    (d, s, t) ∈ core.xKeys ↔ core.matB d s t = true := by
  simp only [Core.xKeys, dedupF_mem, List.mem_flatMap, List.mem_filterMap, List.mem_range,
    Core.matB, Bool.and_eq_true, decide_eq_true_eq]
  constructor
  · rintro ⟨d1, hd1, s1, hs1, t1, ht1, hif⟩
    by_cases h : core.avail d1 s1 t1 = true
    · rw [if_pos h] at hif
      obtain ⟨rfl, rfl, rfl⟩ : d1 = d ∧ s1 = s ∧ t1 = t := by
        injection hif with h2
        exact ⟨congrArg Prod.fst h2, congrArg (fun q => q.2.1) h2,
          congrArg (fun q => q.2.2) h2⟩
      exact ⟨⟨⟨hd1, hs1⟩, ht1⟩, h⟩
    · rw [if_neg h] at hif; cases hif
  · rintro ⟨⟨⟨hd, hs⟩, ht⟩, hav⟩
    exact ⟨d, hd, s, hs, t, ht, by rw [if_pos hav]⟩

theorem Core.xKeys_nodup (core : Core) : core.xKeys.Nodup := dedupF_nodup _

theorem mem_extract (core : Core) (nu : VarId → ℚ) (d : String) (s : Nat) (t : String) :
    ((⟨d, core.start + s, t⟩ : Assignment) ∈ extract core nu) ↔
      ((d, s, t) ∈ core.xKeys ∧ nu (VarId.x d s t) > 1 / 2) := by
  simp only [extract, List.mem_filterMap]
  constructor
  · rintro ⟨⟨d1, s1, t1⟩, hk, hif⟩
    by_cases h : nu (VarId.x d1 s1 t1) > 1 / 2
    · rw [if_pos h] at hif
      have hd : d1 = d := congrArg Assignment.doctor (Option.some.inj hif)
      have hs : core.start + s1 = core.start + s := congrArg Assignment.date (Option.some.inj hif)
      have ht : t1 = t := congrArg Assignment.post (Option.some.inj hif)
      have hs2 : s1 = s := Nat.add_left_cancel hs
      subst hd; subst hs2; subst ht
      exact ⟨hk, h⟩
    · rw [if_neg h] at hif; cases hif
  · rintro ⟨hk, h⟩
    exact ⟨(d, s, t), hk, by rw [if_pos h]⟩

theorem mem_extract_shape (core : Core) (nu : VarId → ℚ) (rec : Assignment) :
    rec ∈ extract core nu ↔
      ∃ d s t, (d, s, t) ∈ core.xKeys ∧ nu (VarId.x d s t) > 1 / 2 ∧
        rec = ⟨d, core.start + s, t⟩ := by
  simp only [extract, List.mem_filterMap]
  constructor
  · rintro ⟨⟨d1, s1, t1⟩, hk, hif⟩
    by_cases h : nu (VarId.x d1 s1 t1) > 1 / 2
    · rw [if_pos h] at hif
      exact ⟨d1, s1, t1, hk, h, (Option.some.inj hif).symm⟩
    · rw [if_neg h] at hif; cases hif
  · rintro ⟨d1, s1, t1, hk, h, rfl⟩
    exact ⟨(d1, s1, t1), hk, by rw [if_pos h]⟩

theorem extract_nodup (core : Core) (nu : VarId → ℚ) : (extract core nu).Nodup := by
  refine List.Nodup.filterMap ?_ core.xKeys_nodup
  rintro ⟨d1, s1, t1⟩ ⟨d2, s2, t2⟩ rec h1 h2
  simp only [Option.mem_def] at h1 h2
  by_cases q1 : nu (VarId.x d1 s1 t1) > 1 / 2
  · rw [if_pos q1] at h1
    by_cases q2 : nu (VarId.x d2 s2 t2) > 1 / 2
    · rw [if_pos q2] at h2
      have e := (Option.some.inj h1).trans (Option.some.inj h2).symm
      have hd : d1 = d2 := congrArg Assignment.doctor e
      have hs : s1 = s2 := Nat.add_left_cancel (congrArg Assignment.date e)
      have ht : t1 = t2 := congrArg Assignment.post e
      simp [hd, hs, ht]
    · rw [if_neg q2] at h2; cases h2
  · rw [if_neg q1] at h1; cases h1

theorem Core.matB_parts (core : Core) {d : String} {s : Nat} {t : String}
    (h : core.matB d s t = true) :
    d ∈ core.Dlist ∧ s < core.ndays ∧ t ∈ core.postsByDay s ∧ core.avail d s t = true := by
  simp only [Core.matB, Bool.and_eq_true, decide_eq_true_eq] at h
  exact ⟨h.1.1.1, h.1.1.2, h.1.2, h.2⟩

theorem Core.pairEq_mem (core : Core) {p : Nat × Nat} {d : String}
    (hp : p ∈ core.weekendPairs) (h1 : core.matB d p.1 sbPost = true)
    (h2 : core.matB d p.2 sbPost = true) :
    ({ lhs := [VarId.x d p.1 sbPost], rhs := [VarId.x d p.2 sbPost], const := 0, isEq := true } :
      LinCon) ∈ core.pairEqCons := by
  have hd : d ∈ core.Dlist := (core.matB_parts h1).1
  refine List.mem_flatMap.mpr ⟨p, hp, ?_⟩
  have hsat : core.Dlist.filterMap (fun q =>
      if core.matB q p.1 sbPost then some (VarId.x q p.1 sbPost) else none) ≠ [] := by
    intro hnil
    have : VarId.x d p.1 sbPost ∈ core.Dlist.filterMap (fun q =>
        if core.matB q p.1 sbPost then some (VarId.x q p.1 sbPost) else none) :=
      List.mem_filterMap.mpr ⟨d, hd, by rw [if_pos h1]⟩
    rw [hnil] at this; cases this
  have hsun : core.Dlist.filterMap (fun q =>
      if core.matB q p.2 sbPost then some (VarId.x q p.2 sbPost) else none) ≠ [] := by
    intro hnil
    have : VarId.x d p.2 sbPost ∈ core.Dlist.filterMap (fun q =>
        if core.matB q p.2 sbPost then some (VarId.x q p.2 sbPost) else none) :=
      List.mem_filterMap.mpr ⟨d, hd, by rw [if_pos h2]⟩
    rw [hnil] at this; cases this
  rw [if_pos ⟨hsat, hsun⟩]
  exact List.mem_filterMap.mpr ⟨d, hd, by rw [if_pos ⟨h1, h2⟩]⟩

theorem Core.yLinkAnd_mem (core : Core) {w : Nat} {p : Nat × Nat} {d : String}
    (hw : core.weekendPairs.get? w = some p) (h1 : core.matB d p.1 sbPost = true)
    (h2 : core.matB d p.2 sbPost = true) :
    ({ lhs := [VarId.x d p.1 sbPost, VarId.x d p.2 sbPost], rhs := [VarId.y d w],
       const := 1, isEq := false } : LinCon) ∈ core.yLinkCons := by
  have hd : d ∈ core.Dlist := (core.matB_parts h1).1
  have hwlt : w < core.weekendPairs.length := by
    by_contra hge
    rw [List.get?_eq_none.mpr (Nat.le_of_not_lt hge)] at hw
    cases hw
  refine List.mem_flatMap.mpr ⟨w, List.mem_range.mpr hwlt, ?_⟩
  rw [hw]
  refine List.mem_flatMap.mpr ⟨d, hd, ?_⟩
  rw [if_pos ⟨h1, h2⟩]
  simp

theorem Core.cap_mem (core : Core) {d : String} (hd : d ∈ core.Dlist)
    (hW : core.weekendPairs ≠ []) :
    ({ lhs := (List.range core.weekendPairs.length).map (fun w => VarId.y d w), rhs := [],
       const := 1, isEq := false } : LinCon) ∈ core.capCons := by
  refine List.mem_filterMap.mpr ⟨d, hd, ?_⟩
  have hne : (List.range core.weekendPairs.length).map (fun w => VarId.y d w) ≠ [] := by
    simp only [ne_eq, List.map_eq_nil_iff, List.range_eq_nil]
    intro h0
    exact hW (List.length_eq_zero.mp h0)
  rw [if_pos hne]

theorem buildModel_mem_pairEq (core : Core) (relax : Bool) {c : LinCon}
    (h : c ∈ core.pairEqCons) : c ∈ (buildModel core relax).constraints := by
  simp only [buildModel, List.mem_append]
  tauto

theorem buildModel_mem_yLink (core : Core) (relax : Bool) {c : LinCon}
    (h : c ∈ core.yLinkCons) : c ∈ (buildModel core relax).constraints := by
  simp only [buildModel, List.mem_append]
  tauto

theorem buildModel_mem_cap (core : Core) (relax : Bool) {c : LinCon}
    (h : c ∈ core.capCons) : c ∈ (buildModel core relax).constraints := by
  simp only [buildModel, List.mem_append]
  tauto

theorem Core.xVar_boolVar (core : Core) {d : String} {s : Nat} {t : String}
    (h : (d, s, t) ∈ core.xKeys) : VarId.x d s t ∈ core.boolVars := by
  unfold Core.boolVars
  simp only [List.mem_append]
  exact Or.inl (Or.inl (Or.inl (Or.inl (List.mem_map.mpr ⟨(d, s, t), h, rfl⟩))))

theorem Core.yVar_boolVar (core : Core) {d : String} {w : Nat}
    (hd : d ∈ core.Dlist) (hw : w < core.weekendPairs.length) :
    VarId.y d w ∈ core.boolVars := by
  unfold Core.boolVars
  simp only [List.mem_append]
  refine Or.inl (Or.inl (Or.inl (Or.inr ?_)))
  exact List.mem_flatMap.mpr ⟨d, hd, List.mem_map.mpr ⟨w, List.mem_range.mpr hw, rfl⟩⟩

theorem SatAssign.holds {M : Model} {nu : VarId → ℚ} (h : SatAssign M nu) {c : LinCon}
    (hc : c ∈ M.constraints) : c.Holds nu := h.1 c hc

theorem SatAssign.bool01 {M : Model} {nu : VarId → ℚ} (h : SatAssign M nu) {v : VarId}
    (hv : v ∈ M.boolVars) : nu v = 0 ∨ nu v = 1 := h.2.1 v hv

/-- C1 (amended): for every solution accepted by the oracle contract and
every weekend pair, a doctor whose standby variables are materialised on
both the Saturday and the Sunday holds a Standby Oncall row on the
Saturday if and only if on the Sunday (the equality-of-doctor constraint
binds exactly those doctors). -/
theorem standby_pairing_amended (core : Core) (relax : Bool) (nu : VarId → ℚ)
    (hsat : SatAssign (buildModel core relax) nu) (p : Nat × Nat)
    (hp : p ∈ core.weekendPairs) (d : String)
    (h1 : core.matB d p.1 sbPost = true) (h2 : core.matB d p.2 sbPost = true) :
    ((⟨d, core.start + p.1, sbPost⟩ : Assignment) ∈ extract core nu ↔
      (⟨d, core.start + p.2, sbPost⟩ : Assignment) ∈ extract core nu) := by
  have hc := hsat.holds (buildModel_mem_pairEq core relax (core.pairEq_mem hp h1 h2))
  have heq : nu (VarId.x d p.1 sbPost) = nu (VarId.x d p.2 sbPost) := by
    rcases hc with ⟨_, h⟩ | ⟨h, _⟩
    · simpa [vsum] using h
    · simp at h
  rw [mem_extract, mem_extract, core.mem_xKeys, core.mem_xKeys]
  rw [h1, h2, heq]

/-- C2 (amended): for every solution accepted by the oracle contract, each
doctor holds full-weekend Standby Oncall assignments (rows on both the
Saturday and the Sunday of a pair) in at most one weekend pair of the
horizon, by the AND-linked weekend indicators and the horizon cap. -/
theorem standby_cap_amended (core : Core) (relax : Bool) (nu : VarId → ℚ)
    (hsat : SatAssign (buildModel core relax) nu) (d : String) :
    ((List.range core.weekendPairs.length).filter
      (fun w => bothSBRows core (extract core nu) d w)).length ≤ 1 := by
  by_cases hne : ((List.range core.weekendPairs.length).filter
      (fun w => bothSBRows core (extract core nu) d w)) = []
  · simp [hne]
  · obtain ⟨w0, hw0⟩ := List.exists_mem_of_ne_nil _ hne
    rw [List.mem_filter] at hw0
    obtain ⟨hw0r, hw0b⟩ := hw0
    have hd : d ∈ core.Dlist := by
      unfold bothSBRows at hw0b
      cases hget : core.weekendPairs.get? w0 with
      | none => rw [hget] at hw0b; cases hw0b
      | some p =>
          rw [hget] at hw0b
          simp only [Bool.and_eq_true, decide_eq_true_eq] at hw0b
          have hm := (mem_extract core nu d p.1 sbPost).mp hw0b.1
          exact (core.matB_parts ((core.mem_xKeys d p.1 sbPost).mp hm.1)).1
    have hWne : core.weekendPairs ≠ [] := by
      have hlt := List.mem_range.mp hw0r
      intro h0; rw [h0] at hlt; simp at hlt
    have hcap := hsat.holds (buildModel_mem_cap core relax (core.cap_mem hd hWne))
    have hsum : (((List.range core.weekendPairs.length).map
        (fun w => VarId.y d w)).map nu).sum ≤ 1 := by
      rcases hcap with ⟨h, _⟩ | ⟨_, h⟩
      · simp at h
      · simpa [vsum] using h
    have hbool : ∀ w ∈ List.range core.weekendPairs.length, 0 ≤ nu (VarId.y d w) := by
      intro w hw
      rcases hsat.bool01 (core.yVar_boolVar hd (List.mem_range.mp hw)) with h | h <;>
        simp [h]
    have hone : ∀ w ∈ List.range core.weekendPairs.length,
        bothSBRows core (extract core nu) d w = true → 1 ≤ nu (VarId.y d w) := by
      intro w hw hb
      unfold bothSBRows at hb
      cases hget : core.weekendPairs.get? w with
      | none => rw [hget] at hb; cases hb
      | some p =>
          rw [hget] at hb
          simp only [Bool.and_eq_true, decide_eq_true_eq] at hb
          have e1 := (mem_extract core nu d p.1 sbPost).mp hb.1
          have e2 := (mem_extract core nu d p.2 sbPost).mp hb.2
          have m1 := (core.mem_xKeys d p.1 sbPost).mp e1.1
          have m2 := (core.mem_xKeys d p.2 sbPost).mp e2.1
          have v1 : nu (VarId.x d p.1 sbPost) = 1 := by
            rcases hsat.bool01 (core.xVar_boolVar e1.1) with h | h
            · exfalso; have := e1.2; rw [h] at this; linarith
            · exact h
          have v2 : nu (VarId.x d p.2 sbPost) = 1 := by
            rcases hsat.bool01 (core.xVar_boolVar e2.1) with h | h
            · exfalso; have := e2.2; rw [h] at this; linarith
            · exact h
          have hand := hsat.holds (buildModel_mem_yLink core relax
            (core.yLinkAnd_mem hget m1 m2))
          rcases hand with ⟨h, _⟩ | ⟨_, h⟩
          · simp at h
          · simp only [vsum, List.map_cons, List.map_nil, List.sum_cons, List.sum_nil] at h
            rw [v1, v2] at h
            linarith
    have hlen := filterLenLeSum (List.range core.weekendPairs.length)
      (fun w => bothSBRows core (extract core nu) d w) (fun w => nu (VarId.y d w)) hbool hone
    have hmapeq : ((List.range core.weekendPairs.length).map
        (fun w => VarId.y d w)).map nu =
        (List.range core.weekendPairs.length).map (fun w => nu (VarId.y d w)) := by
      rw [List.map_map]; rfl
    rw [hmapeq] at hsum
    have hq : (((List.range core.weekendPairs.length).filter
        (fun w => bothSBRows core (extract core nu) d w)).length : ℚ) ≤ 1 :=
      le_trans hlen hsum
    exact_mod_cast hq

/-- Two-day weekend request used to refute the pairing claim: doctor A is
available for standby on both days, doctor B on the Saturday only. -/
def cfgC1 : Config :=
  { roster_start := 5
    roster_end := 6
    doctors := [⟨"A", "U", "floater"⟩, ⟨"B", "U", "floater"⟩]
    units := []
    posts_weekday := []
    posts_weekend := [sbPost]
    availability := [⟨"A", 5, sbPost, true⟩, ⟨"A", 6, sbPost, true⟩, ⟨"B", 5, sbPost, true⟩]
    workload_data := []
    solver_config := {} }

/-- A valuation that assigns doctor A the full weekend and doctor B the
Saturday alone. -/
def nuC1 : VarId → ℚ := fun v =>
  if v = VarId.x ("A") 0 sbPost then 1
  else if v = VarId.x ("A") 1 sbPost then 1
  else if v = VarId.x ("B") 0 sbPost then 1
  else if v = VarId.y ("A") 0 then 1
  else 0

/-- An oracle whose strict phase times out and whose relaxed phase returns
the above valuation as optimal. -/
def oracleC1 : Bool → OracleResult := fun r =>
  if r then { status := "optimal", val := nuC1, objValue := some 0 }
  else { status := "user_limit", val := fun _ => 0, objValue := none }

/-- Two-weekend request used to refute the horizon cap claim: doctor A is
available for standby on the two Saturdays only, doctor B on the two
Sundays only, so strict coverage forces lone standby rows for each doctor
in both weekend pairs. -/
def cfgC2 : Config :=
  { roster_start := 5
    roster_end := 13
    doctors := [⟨"A", "U", "floater"⟩, ⟨"B", "U", "floater"⟩]
    units := []
    posts_weekday := []
    posts_weekend := [sbPost]
    availability := [⟨"A", 5, sbPost, true⟩, ⟨"A", 12, sbPost, true⟩,
      ⟨"B", 6, sbPost, true⟩, ⟨"B", 13, sbPost, true⟩]
    workload_data := []
    solver_config := {} }

/-- The valuation forced by strict coverage on cfgC2. -/
def nuC2 : VarId → ℚ := fun v =>
  if v = VarId.x ("A") 0 sbPost then 1
  else if v = VarId.x ("A") 7 sbPost then 1
  else if v = VarId.x ("B") 1 sbPost then 1
  else if v = VarId.x ("B") 8 sbPost then 1
  else 0

/-- An oracle whose strict phase returns the forced valuation as optimal. -/
def oracleC2 : Bool → OracleResult := fun _ =>
  { status := "optimal", val := nuC2, objValue := some 0 }

/-- C1 (counterexample): on cfgC1 the adopted relaxed solution satisfies
the whole built model, yet the returned schedule has Saturday standby set
of two doctors and Sunday standby set of one, so the claimed set equality
and cardinality bound both fail. -/
theorem standby_pairing_claim_cex :
    SatAssign (buildModel (mkCore cfgC1) true) nuC1 ∧
    (runPrime cfgC1 oracleC1 true).adoptedRelax = true ∧
    usableB (runPrime cfgC1 oracleC1 true).adoptedStatus = true ∧
    standbyPairingHolds (mkCore cfgC1) (runPrime cfgC1 oracleC1 true).response.schedule
      = false := by
  refine ⟨?_, ?_, ?_, ?_⟩ <;> with_unfolding_all decide

/-- C2 (counterexample): on cfgC2 the adopted strict solution satisfies
the whole built model, yet doctor A holds standby rows in both weekend
pairs of the horizon, so the claimed per-doctor weekend cap fails. -/
theorem standby_cap_claim_cex :
    SatAssign (buildModel (mkCore cfgC2) false) nuC2 ∧
    (runPrime cfgC2 oracleC2 true).adoptedRelax = false ∧
    usableB (runPrime cfgC2 oracleC2 true).adoptedStatus = true ∧
    standbyCapHolds (mkCore cfgC2) (runPrime cfgC2 oracleC2 true).response.schedule
      = false := by
  refine ⟨?_, ?_, ?_, ?_⟩ <;> with_unfolding_all decide

theorem runCore_cbc_shape (core : Core) (oracle : Bool → OracleResult) :
    runCore core oracle true =
      (if (oracle false).status == "optimal" then mkOut core (oracle false) false [false]
       else mkOut core (oracle true) true [false, true]) := by
  unfold runCore runCoreInner buildAndSolve
  by_cases hs : (oracle false).status == "optimal" <;>
    simp [hs, Bind.bind, Except.bind, Pure.pure, Except.pure]

theorem runCore_nocbc_shape (core : Core) (oracle : Bool → OracleResult) :
    runCore core oracle false =
      { response := errorResponse ("CBC solver is required but not installed"), phases := [],
        adoptedStatus := "error", adoptedRelax := false } := by
  unfold runCore runCoreInner buildAndSolve
  simp [Bind.bind, Except.bind]

/-- C4: the driver solves the strict phase first and adopts it exactly when
its status is optimal; otherwise the relaxed phase is built and solved once
and adopted whatever its status; the adopted status is surfaced as
solver_status, and results are extracted only for optimal or
optimal_inaccurate. -/
theorem two_phase_driver (cfg : Config) (oracle : Bool → OracleResult) :
    ((oracle false).status = "optimal" →
      (runPrime cfg oracle true).phases = [false] ∧
      (runPrime cfg oracle true).adoptedRelax = false ∧
      (runPrime cfg oracle true).adoptedStatus = (oracle false).status) ∧
    ((oracle false).status ≠ "optimal" →
      (runPrime cfg oracle true).phases = [false, true] ∧
      (runPrime cfg oracle true).adoptedRelax = true ∧
      (runPrime cfg oracle true).adoptedStatus = (oracle true).status) ∧
    ((runPrime cfg oracle true).response.solver_status =
      (runPrime cfg oracle true).adoptedStatus) ∧
    (usableB (runPrime cfg oracle true).adoptedStatus = false →
      (runPrime cfg oracle true).response.schedule = []) ∧
    (usableB (runPrime cfg oracle true).adoptedStatus = true →
      (runPrime cfg oracle true).response.schedule =
        extract (mkCore cfg) (adoptedVal oracle)) := by
  unfold runPrime
  rw [runCore_cbc_shape]
  by_cases hs : (oracle false).status == "optimal"
  · have hs2 : (oracle false).status = "optimal" := by simpa using hs
    rw [if_pos hs]
    refine ⟨fun _ => ⟨rfl, rfl, rfl⟩, fun hc => absurd hs2 hc, rfl, ?_, ?_⟩
    · intro hu
      simp only [mkOut] at hu ⊢
      rw [if_neg (by simp [hu])]
    · intro hu
      simp only [mkOut] at hu ⊢
      rw [if_pos hu]
      unfold adoptedVal
      rw [if_pos hs]
  · have hs2 : (oracle false).status ≠ "optimal" := by simpa using hs
    rw [if_neg hs]
    refine ⟨fun hc => absurd hc hs2, fun _ => ⟨rfl, rfl, rfl⟩, rfl, ?_, ?_⟩
    · intro hu
      simp only [mkOut] at hu ⊢
      rw [if_neg (by simp [hu])]
    · intro hu
      simp only [mkOut] at hu ⊢
      rw [if_pos hu]
      unfold adoptedVal
      rw [if_neg hs]

/-- C4 (witness): on the concrete request cfgC1 the strict phase returns
user_limit, so the relaxed phase is solved and adopted and its optimal
status is surfaced. -/
theorem two_phase_driver_wit :
    (oracleC1 false).status ≠ "optimal" ∧
    (runPrime cfgC1 oracleC1 true).phases = [false, true] ∧
    (runPrime cfgC1 oracleC1 true).adoptedStatus = (oracleC1 true).status := by
  have h := (two_phase_driver cfgC1 oracleC1).2.1 (by decide)
  exact ⟨by decide, h.1, h.2.2⟩

/-- C10: the wrapper never propagates an internal error: whenever the body
raises, the returned dictionary has an empty schedule, success false,
solver_status error, zero weekend assignments and the message in the error
field. -/
theorem error_result_shape (cfg : Config) (oracle : Bool → OracleResult) (cbc : Bool)
    (e : String) (h : runCoreInner (mkCore cfg) oracle cbc = Except.error e) :
    (runPrime cfg oracle cbc).response.schedule = [] ∧
    (runPrime cfg oracle cbc).response.success = false ∧
    (runPrime cfg oracle cbc).response.solver_status = "error" ∧
    (runPrime cfg oracle cbc).response.weekend_assignments = 0 ∧
    (runPrime cfg oracle cbc).response.error = some e := by
  unfold runPrime runCore
  rw [h]
  exact ⟨rfl, rfl, rfl, rfl, rfl⟩

/-- C10 (witness): with the CBC dependency absent the body raises and the
error response shape is returned. -/
theorem error_result_shape_wit :
    (runPrime cfgC1 oracleC1 false).response.schedule = [] ∧
    (runPrime cfgC1 oracleC1 false).response.success = false ∧
    (runPrime cfgC1 oracleC1 false).response.solver_status = "error" ∧
    (runPrime cfgC1 oracleC1 false).response.weekend_assignments = 0 ∧
    (runPrime cfgC1 oracleC1 false).response.error =
      some ("CBC solver is required but not installed") :=
  error_result_shape cfgC1 oracleC1 false ("CBC solver is required but not installed") rfl

theorem runCore_warnings (core : Core) (oracle : Bool → OracleResult) (cbc : Bool) :
    (runCore core oracle cbc).response.warnings = [] := by
  cases cbc
  · rw [runCore_nocbc_shape]; rfl
  · rw [runCore_cbc_shape]
    by_cases hs : (oracle false).status == "optimal"
    · rw [if_pos hs]; rfl
    · rw [if_neg hs]; rfl

theorem checkPairs_iff (core : Core) (i j : Nat) :
    (i, j) ∈ checkPairs core ↔
      (j = i + 1 ∧ i + 1 < core.ndays ∧ weekday (core.start + i) = 5 ∧
        weekday (core.start + i + 1) = 6 ∧
        ∀ d ∈ core.Dlist, ¬(core.avail d i sbPost = true ∧ core.avail d (i + 1) sbPost = true)) := by
  simp only [checkPairs, List.mem_filterMap, List.mem_range]
  constructor
  · rintro ⟨i1, hi1, hif⟩
    by_cases hw : weekday (core.start + i1) = 5 ∧ weekday (core.start + i1 + 1) = 6
    · rw [if_pos hw] at hif
      by_cases hempty : (core.Dlist.filter (fun d => core.avail d i1 sbPost)).filter
          (fun d => decide (d ∈ core.Dlist.filter (fun q => core.avail q (i1 + 1) sbPost))) = []
      · rw [if_pos hempty] at hif
        obtain ⟨rfl, rfl⟩ : i1 = i ∧ i1 + 1 = j := by
          injection hif with h2
          exact ⟨congrArg Prod.fst h2, congrArg Prod.snd h2⟩
        refine ⟨rfl, by omega, hw.1, hw.2, ?_⟩
        intro d hd hboth
        rw [List.filter_eq_nil_iff] at hempty
        refine hempty d ?_ ?_
        · exact List.mem_filter.mpr ⟨hd, hboth.1⟩
        · simp only [decide_eq_true_eq]
          exact List.mem_filter.mpr ⟨hd, hboth.2⟩
      · rw [if_neg hempty] at hif; cases hif
    · rw [if_neg hw] at hif; cases hif
  · rintro ⟨rfl, hlt, hw1, hw2, hnone⟩
    refine ⟨i, by omega, ?_⟩
    rw [if_pos ⟨hw1, hw2⟩]
    have hempty : (core.Dlist.filter (fun d => core.avail d i sbPost)).filter
        (fun d => decide (d ∈ core.Dlist.filter (fun q => core.avail q (i + 1) sbPost))) = [] := by
      rw [List.filter_eq_nil_iff]
      intro d hd hmem
      simp only [decide_eq_true_eq] at hmem
      have h1 := List.mem_filter.mp hd
      have h2 := List.mem_filter.mp hmem
      exact hnone d h1.1 ⟨h1.2, h2.2⟩
    rw [if_pos hempty]

/-- C8 (amended): the response warning list of the wrapper is always empty
(the pairing feasibility check is never invoked), even though the check
itself flags exactly the Saturday to Sunday pairs for which no doctor is
available for Standby Oncall on both days. -/
theorem warnings_empty (cfg : Config) (oracle : Bool → OracleResult) (cbc : Bool) :
    (runPrime cfg oracle cbc).response.warnings = [] ∧
    (∀ i j : Nat, (i, j) ∈ checkPairs (mkCore cfg) ↔
      (j = i + 1 ∧ i + 1 < numDays cfg ∧ weekday (cfg.roster_start + i) = 5 ∧
        weekday (cfg.roster_start + i + 1) = 6 ∧
        ∀ d ∈ (mkCore cfg).Dlist,
          ¬(availB cfg d i sbPost = true ∧ availB cfg d (i + 1) sbPost = true))) :=
  ⟨runCore_warnings (mkCore cfg) oracle cbc, fun i j => checkPairs_iff (mkCore cfg) i j⟩

/-- C8 (witness): instantiation of the amended statement on cfgC1, where
the single weekend pair is feasible so the checker flags nothing and the
warning list is empty. -/
theorem warnings_empty_wit :
    (runPrime cfgC1 oracleC1 true).response.warnings = [] ∧
    ¬((0, 1) ∈ checkPairs (mkCore cfgC1)) := by
  refine ⟨(warnings_empty cfgC1 oracleC1 true).1, ?_⟩
  intro hmem
  have h := ((warnings_empty cfgC1 oracleC1 true).2 0 1).mp hmem
  have hA := h.2.2.2.2 ("A") (by with_unfolding_all decide)
  exact hA ⟨by with_unfolding_all decide, by with_unfolding_all decide⟩

/-- One-weekend request with no standby availability at all, so the
pairing is infeasible for the single weekend pair. -/
def cfgC8 : Config :=
  { roster_start := 5
    roster_end := 6
    doctors := [⟨"A", "U", "floater"⟩]
    units := []
    posts_weekday := []
    posts_weekend := [sbPost]
    availability := []
    workload_data := []
    solver_config := {} }

/-- An oracle that reports infeasibility in both phases. -/
def oracleC8 : Bool → OracleResult := fun _ =>
  { status := "infeasible", val := fun _ => 0, objValue := none }

/-- C8 (counterexample): on cfgC8 no doctor is available for standby on
either day of the weekend pair, the checker flags the pair, yet the
response warning list is empty, so no pairing warning is surfaced. -/
theorem pairing_warning_cex :
    (0, 1) ∈ checkPairs (mkCore cfgC8) ∧
    (runPrime cfgC8 oracleC8 true).response.warnings = [] := by
  refine ⟨?_, ?_⟩ <;> with_unfolding_all decide

/-- C7: when the adopted status is usable the returned schedule is exactly
the duplicate-free extraction of the adopted valuation: one row per
materialised variable valued above one half and nothing else (clinic rows
come from ordinary variables; there is no post-hoc synthesis or standby
expansion); with an unusable status the schedule is empty. -/
theorem extraction_exact (cfg : Config) (oracle : Bool → OracleResult) :
    (usableB (runPrime cfg oracle true).adoptedStatus = true →
      (runPrime cfg oracle true).response.schedule =
        extract (mkCore cfg) (adoptedVal oracle) ∧
      (runPrime cfg oracle true).response.schedule.Nodup ∧
      (∀ rec : Assignment, rec ∈ (runPrime cfg oracle true).response.schedule ↔
        ∃ d s t, (d, s, t) ∈ (mkCore cfg).xKeys ∧
          adoptedVal oracle (VarId.x d s t) > 1 / 2 ∧
          rec = ⟨d, cfg.roster_start + s, t⟩)) ∧
    (usableB (runPrime cfg oracle true).adoptedStatus = false →
      (runPrime cfg oracle true).response.schedule = []) := by
  have hdrv := two_phase_driver cfg oracle
  refine ⟨?_, hdrv.2.2.2.1⟩
  intro hu
  have hsch := hdrv.2.2.2.2 hu
  refine ⟨hsch, ?_, ?_⟩
  · rw [hsch]; exact extract_nodup _ _
  · intro rec
    rw [hsch]
    exact mem_extract_shape (mkCore cfg) (adoptedVal oracle) rec

/-- C7 (witness): instantiation on cfgC2, whose adopted strict optimal
solution yields the four forced standby rows. -/
theorem extraction_exact_wit :
    (runPrime cfgC2 oracleC2 true).response.schedule =
      extract (mkCore cfgC2) (adoptedVal oracleC2) ∧
    (runPrime cfgC2 oracleC2 true).response.schedule.Nodup :=
  ⟨((extraction_exact cfgC2 oracleC2).1 (by with_unfolding_all decide)).1,
   ((extraction_exact cfgC2 oracleC2).1 (by with_unfolding_all decide)).2.1⟩

theorem lookupAvail_none_iff (cfg : Config) (d : String) (t : String) {s : Nat}
    (hs : s < numDays cfg) :
    lookupAvail cfg d (cfg.roster_start + s) t = none ↔
      ∀ r ∈ cfg.availability,
        ¬(r.doctor_id = d ∧ r.date = cfg.roster_start + s ∧ r.post = t) := by
  rw [lookupAvail, List.getLast?_eq_none_iff, List.filter_eq_nil_iff]
  unfold numDays at hs
  constructor
  · intro h r hr hm
    refine h r hr ?_
    simp only [Bool.and_eq_true, beq_iff_eq, decide_eq_true_eq]
    have hd := hm.1
    have hdate := hm.2.1
    have hp := hm.2.2
    refine ⟨⟨⟨⟨hd, hdate⟩, hp⟩, by omega⟩, by omega⟩
  · intro h r hr hp
    simp only [Bool.and_eq_true, beq_iff_eq, decide_eq_true_eq] at hp
    exact h r hr ⟨hp.1.1.1.1, hp.1.1.1.2, hp.1.1.2⟩

theorem lookupAvail_some (cfg : Config) (d : String) (date : Nat) (t : String) {r : AvailRec}
    (h : lookupAvail cfg d date t = some r) :
    r ∈ cfg.availability ∧ r.doctor_id = d ∧ r.date = date ∧ r.post = t := by
  have hm := List.mem_of_getLast?_eq_some h
  rw [List.mem_filter] at hm
  have hp := hm.2
  simp only [Bool.and_eq_true, beq_iff_eq, decide_eq_true_eq] at hp
  exact ⟨hm.1, hp.1.1.1.1, hp.1.1.1.2, hp.1.1.2⟩

theorem sched_sub_extract (cfg : Config) (oracle : Bool → OracleResult) (cbc : Bool)
    {rec : Assignment} (h : rec ∈ (runPrime cfg oracle cbc).response.schedule) :
    ∃ nu, rec ∈ extract (mkCore cfg) nu := by
  cases cbc
  · rw [runPrime, runCore_nocbc_shape] at h
    simp [errorResponse] at h
  · rw [runPrime, runCore_cbc_shape] at h
    by_cases hs : (oracle false).status == "optimal"
    · rw [if_pos hs] at h
      simp only [mkOut] at h
      by_cases hu : usableB (oracle false).status = true
      · rw [if_pos hu] at h; exact ⟨_, h⟩
      · rw [if_neg hu] at h; simp at h
    · rw [if_neg hs] at h
      simp only [mkOut] at h
      by_cases hu : usableB (oracle true).status = true
      · rw [if_pos hu] at h; exact ⟨_, h⟩
      · rw [if_neg hu] at h; simp at h

/-- C3: every schedule row is backed by the availability index: it has an
explicit matching record marked available, or no explicit record at all
and the row is a clinic post of the doctor own unit on a clinic weekday;
slots with no record and no clinic default are unavailable and never
produce rows. -/
theorem schedule_availability (cfg : Config) (oracle : Bool → OracleResult) (cbc : Bool) :
    (∀ rec ∈ (runPrime cfg oracle cbc).response.schedule,
      (∃ r ∈ cfg.availability, r.doctor_id = rec.doctor ∧ r.date = rec.date ∧
        r.post = rec.post ∧ r.available = true) ∨
      ((∀ r ∈ cfg.availability,
          ¬(r.doctor_id = rec.doctor ∧ r.date = rec.date ∧ r.post = rec.post)) ∧
        "clinic:".isPrefixOf rec.post = true ∧
        doctorUnitOf cfg.doctors rec.doctor = rec.post.drop 7 ∧
        weekday rec.date ∈ clinicDaysOf cfg.units (rec.post.drop 7))) ∧
    (∀ d t : String, ∀ s : Nat, s < numDays cfg →
      (∀ r ∈ cfg.availability,
        ¬(r.doctor_id = d ∧ r.date = cfg.roster_start + s ∧ r.post = t)) →
      ¬("clinic:".isPrefixOf t = true ∧ doctorUnitOf cfg.doctors d = t.drop 7 ∧
        weekday (cfg.roster_start + s) ∈ clinicDaysOf cfg.units (t.drop 7)) →
      (availB cfg d s t = false ∧
        (⟨d, cfg.roster_start + s, t⟩ : Assignment) ∉
          (runPrime cfg oracle cbc).response.schedule)) := by
  constructor
  · intro rec hrec
    obtain ⟨nu, hx⟩ := sched_sub_extract cfg oracle cbc hrec
    obtain ⟨d, s, t, hk, hv, rfl⟩ := (mem_extract_shape _ _ _).mp hx
    obtain ⟨hd, hslt, ht, hav⟩ := Core.matB_parts _ ((Core.mem_xKeys _ d s t).mp hk)
    have hav2 : availB cfg d s t = true := hav
    have hslt2 : s < numDays cfg := hslt
    unfold availB at hav2
    cases hl : lookupAvail cfg d (cfg.roster_start + s) t with
    | some r =>
        rw [hl] at hav2
        obtain ⟨hrm, hrd, hrdate, hrp⟩ := lookupAvail_some cfg d _ t hl
        exact Or.inl ⟨r, hrm, hrd, hrdate, hrp, hav2⟩
    | none =>
        rw [hl] at hav2
        by_cases hpre : "clinic:".isPrefixOf t = true
        · rw [if_pos hpre] at hav2
          simp only [Bool.and_eq_true, beq_iff_eq, decide_eq_true_eq] at hav2
          exact Or.inr ⟨(lookupAvail_none_iff cfg d t hslt2).mp hl, hpre, hav2.1, hav2.2⟩
        · rw [if_neg hpre] at hav2
          cases hav2
  · intro d t s hslt hnorec hnclin
    have hnone : lookupAvail cfg d (cfg.roster_start + s) t = none :=
      (lookupAvail_none_iff cfg d t hslt).mpr hnorec
    have hfalse : availB cfg d s t = false := by
      unfold availB
      rw [hnone]
      by_cases hpre : "clinic:".isPrefixOf t = true
      · rw [if_pos hpre]
        cases hu : doctorUnitOf cfg.doctors d == t.drop 7
        · simp [hu]
        · have hwd : decide (weekday (cfg.roster_start + s) ∈
              clinicDaysOf cfg.units (t.drop 7)) = false :=
            decide_eq_false (fun hw => hnclin ⟨hpre, beq_iff_eq.mp hu, hw⟩)
          simp [hu, hwd]
      · rw [if_neg hpre]
    refine ⟨hfalse, ?_⟩
    intro hmem
    obtain ⟨nu, hx⟩ := sched_sub_extract cfg oracle cbc hmem
    have hk := ((mem_extract (mkCore cfg) nu d s t).mp hx).1
    have hav := (Core.matB_parts _ ((Core.mem_xKeys _ d s t).mp hk)).2.2.2
    have : availB cfg d s t = true := hav
    rw [hfalse] at this
    cases this

/-- C3 (witness): instantiation on cfgC1 with its optimal relaxed run: the
Saturday standby row of doctor A is backed by an explicit record, and the
Sunday slot of doctor B, lacking both a record and a clinic default, is
unavailable and produces no row. -/
theorem schedule_availability_wit :
    ((⟨"A", 5, sbPost⟩ : Assignment) ∈ (runPrime cfgC1 oracleC1 true).response.schedule →
      ((∃ r ∈ cfgC1.availability, r.doctor_id = "A" ∧ r.date = 5 ∧
        r.post = sbPost ∧ r.available = true) ∨
      ((∀ r ∈ cfgC1.availability, ¬(r.doctor_id = "A" ∧ r.date = 5 ∧ r.post = sbPost)) ∧
        "clinic:".isPrefixOf sbPost = true ∧
        doctorUnitOf cfgC1.doctors ("A") = sbPost.drop 7 ∧
        weekday 5 ∈ clinicDaysOf cfgC1.units (sbPost.drop 7)))) ∧
    availB cfgC1 ("B") 1 sbPost = false ∧
    (⟨"B", 6, sbPost⟩ : Assignment) ∉ (runPrime cfgC1 oracleC1 true).response.schedule := by
  have h2 := (schedule_availability cfgC1 oracleC1 true).2 ("B") sbPost 1
    (by decide) (by with_unfolding_all decide) (by with_unfolding_all decide)
  refine ⟨?_, h2.1, h2.2⟩
  intro hrec
  have h1 := (schedule_availability cfgC1 oracleC1 true).1 _ hrec
  exact h1

theorem lookupAvail_drop (cfg : Config) (l1 l2 : List AvailRec) (r : AvailRec)
    (hav : cfg.availability = l1 ++ l2)
    (hout : ¬(cfg.roster_start ≤ r.date ∧ r.date ≤ cfg.roster_end)) :
    lookupAvail { cfg with availability := l1 ++ r :: l2 } = lookupAvail cfg := by
  funext d date t
  unfold lookupAvail
  have hpred : (r.doctor_id == d && r.date == date && r.post == t &&
      decide (cfg.roster_start ≤ r.date) && decide (r.date ≤ cfg.roster_end)) = false := by
    simp only [Bool.and_eq_false_iff, decide_eq_false_iff_not]
    by_cases h1 : cfg.roster_start ≤ r.date
    · exact Or.inr (fun h2 => hout ⟨h1, h2⟩)
    · exact Or.inl (Or.inr h1)
  show ((l1 ++ r :: l2).filter (fun q : AvailRec => q.doctor_id == d && q.date == date &&
      q.post == t && decide (cfg.roster_start ≤ q.date) &&
      decide (q.date ≤ cfg.roster_end))).getLast? =
    (cfg.availability.filter (fun q : AvailRec => q.doctor_id == d && q.date == date &&
      q.post == t && decide (cfg.roster_start ≤ q.date) &&
      decide (q.date ≤ cfg.roster_end))).getLast?
  rw [hav, List.filter_append, List.filter_append, List.filter_cons]
  rw [hpred]
  simp

theorem availB_drop (cfg : Config) (l1 l2 : List AvailRec) (r : AvailRec)
    (hav : cfg.availability = l1 ++ l2)
    (hout : ¬(cfg.roster_start ≤ r.date ∧ r.date ≤ cfg.roster_end)) :
    availB { cfg with availability := l1 ++ r :: l2 } = availB cfg := by
  funext d s t
  unfold availB
  rw [lookupAvail_drop cfg l1 l2 r hav hout]

/-- C9: an availability record dated outside the inclusive roster interval
has no effect: the availability index, the materialised variable keys and
the whole run outcome are identical to those of the request without the
record. -/
theorem outofrange_record_noop (cfg : Config) (l1 l2 : List AvailRec) (r : AvailRec)
    (hav : cfg.availability = l1 ++ l2)
    (hout : ¬(cfg.roster_start ≤ r.date ∧ r.date ≤ cfg.roster_end))
    (oracle : Bool → OracleResult) (cbc : Bool) :
    availB { cfg with availability := l1 ++ r :: l2 } = availB cfg ∧
    (mkCore { cfg with availability := l1 ++ r :: l2 }).xKeys = (mkCore cfg).xKeys ∧
    runPrime { cfg with availability := l1 ++ r :: l2 } oracle cbc =
      runPrime cfg oracle cbc := by
  have hA := availB_drop cfg l1 l2 r hav hout
  have hcore : mkCore { cfg with availability := l1 ++ r :: l2 } = mkCore cfg := by
    unfold mkCore
    rw [hA]
    rfl
  exact ⟨hA, by rw [hcore], by rw [runPrime, runPrime, hcore]⟩

/-- An availability record dated after the two-day horizon of cfgC1. -/
def recC9 : AvailRec := ⟨"A", 99, sbPost, true⟩

/-- C9 (witness): appending the out-of-range record recC9 to cfgC1 leaves
index, variables and run outcome unchanged. -/
theorem outofrange_record_noop_wit :
    availB { cfgC1 with availability := cfgC1.availability ++ recC9 :: [] } = availB cfgC1 ∧
    (mkCore { cfgC1 with availability := cfgC1.availability ++ recC9 :: [] }).xKeys =
      (mkCore cfgC1).xKeys ∧
    runPrime { cfgC1 with availability := cfgC1.availability ++ recC9 :: [] } oracleC1 true =
      runPrime cfgC1 oracleC1 true :=
  outofrange_record_noop cfgC1 cfgC1.availability [] recC9 (by simp) (by decide) oracleC1 true

/-- C1 (witness): instantiation of the amended pairing statement on cfgC1
for doctor A, materialised on both days of the single weekend pair. -/
theorem standby_pairing_amended_wit :
    SatAssign (buildModel (mkCore cfgC1) true) nuC1 ∧
    ((⟨"A", 5, sbPost⟩ : Assignment) ∈ extract (mkCore cfgC1) nuC1 ↔
      (⟨"A", 6, sbPost⟩ : Assignment) ∈ extract (mkCore cfgC1) nuC1) := by
  have hsat : SatAssign (buildModel (mkCore cfgC1) true) nuC1 := by with_unfolding_all decide
  exact ⟨hsat, standby_pairing_amended (mkCore cfgC1) true nuC1 hsat (0, 1)
    (by with_unfolding_all decide) ("A") (by with_unfolding_all decide)
    (by with_unfolding_all decide)⟩

/-- C2 (witness): instantiation of the amended cap statement on cfgC1 for
doctor A. -/
theorem standby_cap_amended_wit :
    SatAssign (buildModel (mkCore cfgC1) true) nuC1 ∧
    ((List.range (mkCore cfgC1).weekendPairs.length).filter
      (fun w => bothSBRows (mkCore cfgC1) (extract (mkCore cfgC1) nuC1) ("A") w)).length ≤ 1 := by
  have hsat : SatAssign (buildModel (mkCore cfgC1) true) nuC1 := by with_unfolding_all decide
  exact ⟨hsat, standby_cap_amended (mkCore cfgC1) true nuC1 hsat ("A")⟩

theorem Core.mem_weekendPairs_iff (core : Core) (s : Nat) :
    (s, s + 1) ∈ core.weekendPairs ↔
      (s < core.ndays - 1 ∧ weekday (core.start + s) = 5 ∧
        weekday (core.start + s + 1) = 6) := by
  unfold Core.weekendPairs Core.satDays
  rw [List.mem_map]
  constructor
  · rintro ⟨s1, hs1, heq⟩
    have hss : s1 = s := congrArg Prod.fst heq
    subst hss
    rw [List.mem_filter, List.mem_range] at hs1
    have hw := hs1.2
    simp only [Bool.and_eq_true, beq_iff_eq] at hw
    exact ⟨hs1.1, hw.1, hw.2⟩
  · rintro ⟨hlt, h5, h6⟩
    refine ⟨s, ?_, rfl⟩
    rw [List.mem_filter, List.mem_range]
    refine ⟨hlt, ?_⟩
    simp only [Bool.and_eq_true, beq_iff_eq]
    exact ⟨h5, h6⟩

theorem Core.restKeys_mem (core : Core) {d : String} {s : Nat} (hd : d ∈ core.Dlist)
    (hs : s < core.ndays - 1) : (d, s) ∈ core.restKeys := by
  unfold Core.restKeys
  exact List.mem_flatMap.mpr ⟨d, hd, List.mem_map.mpr ⟨s, List.mem_range.mpr hs, rfl⟩⟩

theorem Core.postsByDay_weekend (core : Core) {s : Nat} (h : 5 ≤ weekday (core.start + s)) :
    core.postsByDay s = core.postsWE := by
  unfold Core.postsByDay
  rw [if_pos h]

theorem Core.nonSB_sub_oncall (core : Core) {d : String} {s : Nat} {v : VarId}
    (h : v ∈ core.nonSBVars d s) : v ∈ core.oncallVars d s := by
  unfold Core.nonSBVars at h
  unfold Core.oncallVars
  rw [List.mem_filterMap] at h ⊢
  obtain ⟨t, ht, hif⟩ := h
  by_cases hc : core.oncallP t ∧ t ≠ sbPost ∧ core.matB d s t
  · rw [if_pos hc] at hif
    exact ⟨t, ht, by rw [if_pos ⟨hc.1, hc.2.2⟩]; exact hif⟩
  · rw [if_neg hc] at hif; cases hif

theorem Core.nonSB_ne_nil (core : Core) {d : String} {s : Nat}
    (h : core.nonSBVars d s ≠ []) : core.oncallVars d s ≠ [] := by
  obtain ⟨v, hv⟩ := List.exists_mem_of_ne_nil _ h
  exact List.ne_nil_of_mem (core.nonSB_sub_oncall hv)

theorem Core.nonSB_eq_oncall (core : Core) {d : String} {s : Nat}
    (hsb : sbPost ∉ core.postsByDay s) : core.nonSBVars d s = core.oncallVars d s := by
  unfold Core.nonSBVars Core.oncallVars
  apply List.filterMap_congr
  intro t ht
  have hne : t ≠ sbPost := fun he => hsb (he ▸ ht)
  by_cases hc : core.oncallP t ∧ core.matB d s t
  · rw [if_pos ⟨hc.1, hne, hc.2⟩, if_pos hc]
  · rw [if_neg (fun hh => hc ⟨hh.1, hh.2.2⟩), if_neg hc]

theorem restData_eq_spec (core : Core) : core.restData = core.restDataSpec := by
  unfold Core.restData Core.restDataSpec
  apply List.flatMap_congr
  intro d hd
  apply List.filterMap_congr
  intro s hs
  rw [List.mem_range] at hs
  have hk : (d, s) ∈ core.restKeys := core.restKeys_mem hd hs
  by_cases hw : weekday (core.start + s) = 5 ∧ weekday (core.start + s + 1) = 6
  · have hWmem : (s, s + 1) ∈ core.weekendPairs :=
      (core.mem_weekendPairs_iff s).mpr ⟨hs, hw.1, hw.2⟩
    rw [if_pos hWmem]
    by_cases hsb : sbPost ∈ core.postsByDay s ∧ sbPost ∈ core.postsByDay (s + 1)
    · by_cases hnt : core.nonSBVars d s ≠ [] ∧ core.nonSBVars d (s + 1) ≠ []
      · have hA : core.oncallVars d s ≠ [] ∧ core.oncallVars d (s + 1) ≠ [] :=
          ⟨core.nonSB_ne_nil hnt.1, core.nonSB_ne_nil hnt.2⟩
        rw [if_pos hA, if_pos ⟨hw.1, hw.2, hsb.1, hsb.2⟩, if_pos hnt, if_pos hk, if_pos hnt]
      · by_cases hA : core.oncallVars d s ≠ [] ∧ core.oncallVars d (s + 1) ≠ []
        · rw [if_pos hA, if_pos ⟨hw.1, hw.2, hsb.1, hsb.2⟩, if_neg hnt, if_neg hnt]
        · rw [if_neg hA, if_neg hnt]
    · have hpe1 : core.postsByDay s = core.postsWE :=
        core.postsByDay_weekend (by rw [hw.1])
      have hpe2 : core.postsByDay (s + 1) = core.postsWE :=
        core.postsByDay_weekend
          (by rw [show core.start + (s + 1) = core.start + s + 1 from by omega, hw.2]; norm_num)
      have hnsb : sbPost ∉ core.postsByDay s ∧ sbPost ∉ core.postsByDay (s + 1) := by
        by_cases h1 : sbPost ∈ core.postsByDay s
        · exfalso
          refine hsb ⟨h1, ?_⟩
          rw [hpe2]
          rw [hpe1] at h1
          exact h1
        · refine ⟨h1, ?_⟩
          rw [hpe2]
          intro h2
          rw [hpe1] at h1
          exact h1 h2
      have he1 : core.nonSBVars d s = core.oncallVars d s := core.nonSB_eq_oncall hnsb.1
      have he2 : core.nonSBVars d (s + 1) = core.oncallVars d (s + 1) :=
        core.nonSB_eq_oncall hnsb.2
      have hswf : ¬(weekday (core.start + s) = 5 ∧ weekday (core.start + s + 1) = 6 ∧
          sbPost ∈ core.postsByDay s ∧ sbPost ∈ core.postsByDay (s + 1)) :=
        fun hc => hsb ⟨hc.2.2.1, hc.2.2.2⟩
      rw [he1, he2]
      by_cases hA : core.oncallVars d s ≠ [] ∧ core.oncallVars d (s + 1) ≠ []
      · rw [if_pos hA, if_neg hswf, if_pos hk, if_pos hA]
      · rw [if_neg hA, if_neg hA]
  · have hWm : (s, s + 1) ∉ core.weekendPairs := by
      intro hmem
      have := (core.mem_weekendPairs_iff s).mp hmem
      exact hw ⟨this.2.1, this.2.2⟩
    rw [if_neg hWm]
    by_cases hA : core.oncallVars d s ≠ [] ∧ core.oncallVars d (s + 1) ≠ []
    · have hswf : ¬(weekday (core.start + s) = 5 ∧ weekday (core.start + s + 1) = 6 ∧
          sbPost ∈ core.postsByDay s ∧ sbPost ∈ core.postsByDay (s + 1)) :=
        fun hc => hw ⟨hc.1, hc.2.1⟩
      rw [if_pos hA, if_neg hswf, if_pos hk, if_pos hA]
    · rw [if_neg hA, if_neg hA]

/-- C5: the rest constraint family built by the wrapper is exactly the
family the specification describes: for every doctor and adjacent day pair
with materialised on-call variables on both days, the soft constraint with
the rest-violation variable and its lambda-rest penalty; on weekend pairs
the standby variables are excluded and the constraint is emitted only when
the remaining on-call posts are materialised on both days.  Every emitted
pair lands in the built model constraints and penalties. -/
theorem rest_constraints_spec (core : Core) (relax : Bool) :
    core.restData = core.restDataSpec ∧
    (∀ pr ∈ core.restData, pr.1 ∈ (buildModel core relax).constraints ∧
      ∀ q ∈ pr.2, q ∈ (buildModel core relax).penalties) := by
  refine ⟨restData_eq_spec core, ?_⟩
  intro pr hpr
  constructor
  · simp only [buildModel, List.mem_append]
    exact Or.inl (Or.inl (Or.inl (Or.inr (List.mem_map.mpr ⟨pr, hpr, rfl⟩))))
  · intro q hq
    simp only [buildModel, List.mem_append]
    refine Or.inl (Or.inl (Or.inl (Or.inl (Or.inl (Or.inl (Or.inl (Or.inl (Or.inr ?_))))))))
    exact List.mem_filterMap.mpr ⟨pr, hpr, hq⟩

/-- Two-weekday request with one doctor available for ED1 on both days,
materialising a regular rest pair. -/
def cfgC5 : Config :=
  { roster_start := 0
    roster_end := 1
    doctors := [⟨"A", "U", "floater"⟩]
    units := []
    posts_weekday := ["ED1"]
    posts_weekend := []
    availability := [⟨"A", 0, "ED1", true⟩, ⟨"A", 1, "ED1", true⟩]
    workload_data := []
    solver_config := {} }

/-- C5 (witness): on cfgC5 the code and specification rest families agree,
and the adjacent weekday pair of doctor A yields the soft rest constraint
with its default lambda-rest penalty inside the built model. -/
theorem rest_constraints_spec_wit :
    (mkCore cfgC5).restData = (mkCore cfgC5).restDataSpec ∧
    ({ lhs := [VarId.x ("A") 0 ("ED1"), VarId.x ("A") 1 ("ED1")],
       rhs := [VarId.restViol ("A") 0], const := 1, isEq := false } : LinCon) ∈
      (buildModel (mkCore cfgC5) false).constraints ∧
    (((3 : ℚ), VarId.restViol ("A") 0) : ℚ × VarId) ∈
      (buildModel (mkCore cfgC5) false).penalties := by
  have hmem : ((⟨[VarId.x ("A") 0 ("ED1"), VarId.x ("A") 1 ("ED1")],
      [VarId.restViol ("A") 0], 1, false⟩ : LinCon),
      some (((3 : ℚ), VarId.restViol ("A") 0))) ∈
      (mkCore cfgC5).restData := by with_unfolding_all decide
  have h := (rest_constraints_spec (mkCore cfgC5) false).2 _ hmem
  exact ⟨(rest_constraints_spec (mkCore cfgC5) false).1, h.1, h.2 _ rfl⟩

/-- C6: the workload-aware standby penalty attaches to every materialised
Standby Oncall variable of a doctor exactly the multiplier of the claim:
base lambda-standby, plus 5000 with standby in the last 12 months, else
plus 2000 with standby in the last 3 months, else plus the recency
surcharge max 0 ((365 - days) * 5) inside a year, else, beyond a year,
reduced by the capped reward min 200 ((days - 365) / 5) but never below 1;
doctors without a workload record use counts 0 and the 9999 sentinel. -/
theorem standby_penalty_coeff (core : Core) :
    (∀ cv ∈ core.standbyPens, ∃ d1 s1,
      cv = (standbyMultiplier core.lamStandby (core.workloadOf d1), VarId.x d1 s1 sbPost) ∧
        core.matB d1 s1 sbPost = true) ∧
    (∀ d : String, ∀ s : Nat, core.matB d s sbPost = true → ∀ c : ℚ,
      ((c, VarId.x d s sbPost) ∈ core.standbyPens ↔
        c = (if (core.workloadOf d).1 > 0 then core.lamStandby + 5000
             else if (core.workloadOf d).2.1 > 0 then core.lamStandby + 2000
             else if (core.workloadOf d).2.2 < 365 then
               core.lamStandby + ((max 0 ((365 - (core.workloadOf d).2.2) * 5) : Int) : ℚ)
             else if (core.workloadOf d).2.2 > 365 then
               max 1 (core.lamStandby - min 200 ((((core.workloadOf d).2.2 : ℚ) - 365) / 5))
             else core.lamStandby))) ∧
    (∀ d : String, (∀ w ∈ core.wdata, w.doctor_id ≠ d) →
      core.workloadOf d = (0, 0, 9999)) := by
  have hshape : ∀ cv ∈ core.standbyPens, ∃ d1 s1,
      cv = (standbyMultiplier core.lamStandby (core.workloadOf d1), VarId.x d1 s1 sbPost) ∧
        core.matB d1 s1 sbPost = true := by
    intro cv hcv
    unfold Core.standbyPens at hcv
    rw [List.mem_flatMap] at hcv
    obtain ⟨d1, hd1, hin⟩ := hcv
    rw [List.mem_flatMap] at hin
    obtain ⟨s1, hs1, hin2⟩ := hin
    rw [List.mem_filterMap] at hin2
    obtain ⟨t, ht, hif⟩ := hin2
    by_cases hc : t = sbPost ∧ core.matB d1 s1 t = true
    · rw [if_pos hc] at hif
      obtain ⟨rfl, hmat⟩ := hc
      exact ⟨d1, s1, (Option.some.inj hif).symm, hmat⟩
    · rw [if_neg hc] at hif; cases hif
  refine ⟨hshape, ?_, ?_⟩
  · intro d s hmat c
    have hfor : c = standbyMultiplier core.lamStandby (core.workloadOf d) ↔
        c = (if (core.workloadOf d).1 > 0 then core.lamStandby + 5000
             else if (core.workloadOf d).2.1 > 0 then core.lamStandby + 2000
             else if (core.workloadOf d).2.2 < 365 then
               core.lamStandby + ((max 0 ((365 - (core.workloadOf d).2.2) * 5) : Int) : ℚ)
             else if (core.workloadOf d).2.2 > 365 then
               max 1 (core.lamStandby - min 200 ((((core.workloadOf d).2.2 : ℚ) - 365) / 5))
             else core.lamStandby) := by
      unfold standbyMultiplier
      exact Iff.rfl
    rw [← hfor]
    constructor
    · intro hmem
      obtain ⟨d1, s1, heq, hmat1⟩ := hshape _ hmem
      have hc : c = standbyMultiplier core.lamStandby (core.workloadOf d1) :=
        congrArg Prod.fst heq
      have hvar : VarId.x d s sbPost = VarId.x d1 s1 sbPost := congrArg Prod.snd heq
      have hd : d = d1 := by injection hvar
      rw [hc, hd]
    · intro hc
      obtain ⟨hd, hslt, ht, _⟩ := Core.matB_parts _ hmat
      unfold Core.standbyPens
      rw [List.mem_flatMap]
      refine ⟨d, hd, ?_⟩
      rw [List.mem_flatMap]
      refine ⟨s, List.mem_range.mpr hslt, ?_⟩
      rw [List.mem_filterMap]
      refine ⟨sbPost, ht, ?_⟩
      rw [if_pos ⟨rfl, hmat⟩, hc]
  · intro d hno
    unfold Core.workloadOf
    by_cases hw : core.wdata ≠ []
    · rw [if_pos hw]
      have hfil : core.wdata.filter (fun w => w.doctor_id == d) = [] := by
        rw [List.filter_eq_nil_iff]
        intro w hwm
        simp only [beq_iff_eq]
        exact hno w hwm
      rw [hfil]
      rfl
    · rw [if_neg hw]

/-- Request with a weekend standby slot for doctor A, whose workload
record gives a standby 800 days in the past. -/
def cfgC6 : Config :=
  { roster_start := 5
    roster_end := 6
    doctors := [⟨"A", "U", "floater"⟩]
    units := []
    posts_weekday := []
    posts_weekend := [sbPost]
    availability := [⟨"A", 5, sbPost, true⟩, ⟨"A", 6, sbPost, true⟩]
    workload_data := [⟨"A", 0, 0, 800⟩]
    solver_config := {} }

/-- C6 (witness): on cfgC6 the multiplier of doctor A evaluates along the
beyond-a-year branch to max 1 (5 - min 200 (435 / 5)) = 1, and that
coefficient is attached to the materialised Saturday standby variable. -/
theorem standby_penalty_coeff_wit :
    (mkCore cfgC6).matB ("A") 0 sbPost = true ∧
    (((1 : ℚ), VarId.x ("A") 0 sbPost) : ℚ × VarId) ∈ (mkCore cfgC6).standbyPens := by
  have hm : (mkCore cfgC6).matB ("A") 0 sbPost = true := by with_unfolding_all decide
  refine ⟨hm, ?_⟩
  exact ((standby_penalty_coeff (mkCore cfgC6)).2.1 ("A") 0 hm 1).mpr
    (by with_unfolding_all decide)
